import Mathlib

/-!
Verification development for the voice-memo-transcriber repository.

The Python sources are shallowly embedded: `datetime` values are modelled by
their proleptic-Gregorian day ordinal (Python `date.toordinal`: day 1 is
0001-01-01, a Monday) together with clock fields, JSON values by an inductive
type, the Google Docs service by an explicit store of documents and tabs, and
files on disk by lists of newline-terminated lines.  External collaborators
(ffprobe, the transcription backends, `re`, `float`) appear as explicit
inputs or function parameters.
-/

namespace VMT

/-! ## Decimal rendering of naturals (model of Python `str(n)` / `%d`) -/

def digitChar (n : Nat) : Char := Char.ofNat (48 + n % 10)

def natDigitsAux : Nat → Nat → List Char
  | 0, _ => []
  | fuel + 1, n =>
    if n < 10 then [digitChar n]
    else natDigitsAux fuel (n / 10) ++ [digitChar (n % 10)]

def natToString (n : Nat) : String := ⟨natDigitsAux (n + 1) n⟩

/-- Zero-padding to two digits, the effect of `%02d` / `%m` / `%d` etc. -/
def pad2 (n : Nat) : String := if n < 10 then "0" ++ natToString n else natToString n

/-! ## Dates

A Python `datetime` is modelled by its day ordinal plus clock fields.
`timedelta(days=k)` subtraction acts on the ordinal; `weekday()` is
`(ordinal + 6) % 7` because ordinal 1 (0001-01-01) is a Monday.
-/

structure PyDateTime where
  days : Nat
  hour : Nat
  minute : Nat
  second : Nat
  deriving Repr, DecidableEq

/-- Civil (year, month, day) from a day ordinal (Howard Hinnant's
`civil_from_days`, shifted so that ordinal 1 is 0001-01-01). -/
def civilFromDays (rd : Nat) : Nat × Nat × Nat :=
  let z := rd + 305
  let era := z / 146097
  let doe := z % 146097
  let yoe := (doe - doe / 1460 + doe / 36524 - doe / 146096) / 365
  let y := yoe + era * 400
  let doy := doe - (365 * yoe + yoe / 4 - yoe / 100)
  let mp := (5 * doy + 2) / 153
  let d := doy - (153 * mp + 2) / 5 + 1
  let m := if mp < 10 then mp + 3 else mp - 9
  if m ≤ 2 then (y + 1, m, d) else (y, m, d)

/-- Day ordinal from a civil date (Hinnant's `days_from_civil`, same shift). -/
def daysFromCivil (y m d : Nat) : Nat :=
  let y' := if m ≤ 2 then y - 1 else y
  let era := y' / 400
  let yoe := y' - era * 400
  let mp := if 2 < m then m - 3 else m + 9
  let doy := (153 * mp + 2) / 5 + d - 1
  let doe := yoe * 365 + yoe / 4 - yoe / 100 + doy
  era * 146097 + doe - 305

def mkDT (y m d hh mm ss : Nat) : PyDateTime := ⟨daysFromCivil y m d, hh, mm, ss⟩

def PyDateTime.year (dt : PyDateTime) : Nat := (civilFromDays dt.days).1
def PyDateTime.month (dt : PyDateTime) : Nat := (civilFromDays dt.days).2.1
def PyDateTime.day (dt : PyDateTime) : Nat := (civilFromDays dt.days).2.2

/-- Python `datetime.weekday()`: Monday = 0 … Sunday = 6. -/
def pyWeekday (dt : PyDateTime) : Nat := (dt.days + 6) % 7

/-- `dt - timedelta(days=k)` (claims only exercise it where it cannot underflow). -/
def subDays (dt : PyDateTime) (k : Nat) : PyDateTime := { dt with days := dt.days - k }

def monthName : Nat → String
  | 1 => "January" | 2 => "February" | 3 => "March" | 4 => "April"
  | 5 => "May" | 6 => "June" | 7 => "July" | 8 => "August"
  | 9 => "September" | 10 => "October" | 11 => "November" | 12 => "December"
  | _ => ""

/-- One `%x` directive of `strftime` (only the directives this repository uses). -/
def strftimeDirective (c : Char) (dt : PyDateTime) : String :=
  if c = 'Y' then natToString dt.year
  else if c = 'm' then pad2 dt.month
  else if c = 'd' then pad2 dt.day
  else if c = 'B' then monthName dt.month
  else if c = 'H' then pad2 dt.hour
  else if c = 'M' then pad2 dt.minute
  else if c = 'S' then pad2 dt.second
  else "%" ++ ⟨[c]⟩

def strftimeAux (dt : PyDateTime) : List Char → List Char
  | '%' :: c :: rest => (strftimeDirective c dt).data ++ strftimeAux dt rest
  | c :: rest => c :: strftimeAux dt rest
  | [] => []

/-- Model of Python `dt.strftime(fmt)` for the formats used in the sources. -/
def strftime (fmt : String) (dt : PyDateTime) : String := ⟨strftimeAux dt fmt.data⟩

/-! ## Metadata as seen by the grouping strategies

`extract_audio_metadata` produces a dict whose fields, when present, have
these types; the strategies read `title` and `duration` via `.get`. -/

structure Metadata where
  title : Option String := none
  duration : Option ℚ := none
  device : Option String := none
  deriving Repr, DecidableEq

/-! ## Character-list string helpers (models of Python string operations) -/

/-- `pat` begins `s` (character-wise). -/
def listStarts : List Char → List Char → Bool
  | [], _ => true
  | _ :: _, [] => false
  | p :: ps, c :: cs => p == c && listStarts ps cs

/-- `pat` occurs inside `s` (model of Python `pat in s` for strings). -/
def containsSeq (pat : List Char) : List Char → Bool
  | [] => listStarts pat []
  | s =>
    match s with
    | [] => false
    | _ :: rest => listStarts pat s || containsSeq pat rest

def strContains (pat s : String) : Bool := containsSeq pat.data s.data

def strStarts (pat s : String) : Bool := listStarts pat.data s.data

/-- Python `name.lower().replace(" ", "-")` as used by the bucket strategies
(character-wise: lowercase, then hyphenate spaces). -/
def normalizeTabName (s : String) : String :=
  ⟨(s.data.map Char.toLower).map (fun c => if c = ' ' then '-' else c)⟩

/-! ## Document grouping strategies (`google_docs.py`, classes `*DocGrouping`) -/

def WeeklyDocGrouping.get_group_key (dt : PyDateTime) (_md : Metadata) : String :=
  strftime "%Y-%m-%d" (subDays dt (pyWeekday dt))

def WeeklyDocGrouping.get_doc_title (key : String) : String :=
  key ++ " Voice Memo Transcripts"

def MonthlyDocGrouping.get_group_key (dt : PyDateTime) (_md : Metadata) : String :=
  strftime "%Y-%m" dt

def QuarterlyDocGrouping.get_group_key (dt : PyDateTime) (_md : Metadata) : String :=
  natToString dt.year ++ "-Q" ++ natToString ((dt.month - 1) / 3 + 1)

def YearlyDocGrouping.get_group_key (dt : PyDateTime) (_md : Metadata) : String :=
  natToString dt.year

/-- `TagBasedDocGrouping.get_group_key`; the compiled regex is an external
collaborator, modelled by `search : String → Option String` standing for
`pattern.search(title)` returning the first capture group. -/
def TagBasedDocGrouping.get_group_key (search : String → Option String)
    (_dt : PyDateTime) (md : Metadata) : String :=
  match search (md.title.getD "") with
  | some tag => "tag-" ++ tag
  | none => "untagged"

def TagBasedDocGrouping.get_doc_title (key : String) : String :=
  if strStarts "tag-" key then "#" ++ ⟨key.data.drop 4⟩ ++ " Voice Memo Transcripts"
  else "Untagged Voice Memo Transcripts"

/-- Document grouping strategy, one constructor per `DocGroupingStrategy` subclass. -/
inductive DocStrategy where
  | weekly
  | monthly
  | quarterly
  | yearly
  | tagBased (search : String → Option String)
  | single

def docGroupKey : DocStrategy → PyDateTime → Metadata → String
  | .weekly, dt, md => WeeklyDocGrouping.get_group_key dt md
  | .monthly, dt, md => MonthlyDocGrouping.get_group_key dt md
  | .quarterly, dt, md => QuarterlyDocGrouping.get_group_key dt md
  | .yearly, dt, md => YearlyDocGrouping.get_group_key dt md
  | .tagBased search, dt, md => TagBasedDocGrouping.get_group_key search dt md
  | .single, _, _ => "single"

def docTitle : DocStrategy → String → String
  | .weekly, key => key ++ " Voice Memo Transcripts"
  | .monthly, key => key ++ " Voice Memo Transcripts"
  | .quarterly, key => key ++ " Voice Memo Transcripts"
  | .yearly, key => key ++ " Voice Memo Transcripts"
  | .tagBased _, key => TagBasedDocGrouping.get_doc_title key
  | .single, _ => "Voice Memo Transcripts"

/-! ## Tab grouping strategies (`google_docs.py`, classes `*TabGrouping`) -/

/-- Tab grouping strategy, one constructor per `TabGroupingStrategy` subclass.
Duration range bounds: `none` as an upper bound models `float('inf')`. -/
inductive TabStrategy where
  | daily (dateFormat : String)
  | weekly
  | timeOfDay (ranges : List (String × Nat × Nat))
  | duration (ranges : List (String × ℚ × Option ℚ))
  | noTab
  | tagBased (search : String → Option String)

/-- `duration < max_dur` where `none` is `float('inf')`. -/
def durLtTop (dur : ℚ) : Option ℚ → Bool
  | some hi => dur < hi
  | none => true

/-- The `for name, (min_dur, max_dur) in self.duration_ranges.items()` loop of
`DurationTabGrouping.get_tab_key` (dicts iterate in insertion order). -/
def durationKeyLoop (dur : ℚ) : List (String × ℚ × Option ℚ) → String
  | [] => "unknown"
  | (name, lo, hi) :: rest =>
    if lo ≤ dur ∧ durLtTop dur hi then normalizeTabName name else durationKeyLoop dur rest

/-- The loop of `TimeOfDayTabGrouping.get_tab_key`. -/
def timeOfDayKeyLoop (hour : Nat) : List (String × Nat × Nat) → String
  | [] => "unknown"
  | (name, lo, hi) :: rest =>
    if lo ≤ hour ∧ hour < hi then normalizeTabName name else timeOfDayKeyLoop hour rest

def timeOfDayTitleLoop (key : String) : List (String × Nat × Nat) → String
  | [] => "Unknown Time"
  | (name, lo, hi) :: rest =>
    if normalizeTabName name = key then
      name ++ " (" ++ natToString lo ++ ":00-" ++ natToString hi ++ ":00)"
    else timeOfDayTitleLoop key rest

def durationTitleLoop (key : String) : List (String × ℚ × Option ℚ) → String
  | [] => "Unknown Duration"
  | (name, _, _) :: rest =>
    if normalizeTabName name = key then name else durationTitleLoop key rest

def getTabKey : TabStrategy → PyDateTime → Metadata → String
  | .daily _, dt, _ => strftime "%Y-%m-%d" dt
  | .weekly, dt, _ => strftime "%Y-%m-%d" (subDays dt (pyWeekday dt))
  | .timeOfDay ranges, dt, _ => timeOfDayKeyLoop dt.hour ranges
  | .duration ranges, _, md => durationKeyLoop (md.duration.getD 0) ranges
  | .noTab, _, _ => "all"
  | .tagBased search, _, md =>
    match search (md.title.getD "") with
    | some tag => "tag-" ++ tag
    | none => "untagged"

def getTabTitle : TabStrategy → String → PyDateTime → String
  | .daily dateFormat, _, dt => strftime dateFormat dt
  | .weekly, _, dt => "Week of " ++ strftime "%B %d, %Y" (subDays dt (pyWeekday dt))
  | .timeOfDay ranges, key, _ => timeOfDayTitleLoop key ranges
  | .duration ranges, key, _ => durationTitleLoop key ranges
  | .noTab, _, _ => ""
  | .tagBased _, key, _ =>
    if strStarts "tag-" key then "#" ++ ⟨key.data.drop 4⟩ else "Untagged"

def TabStrategy.isNoTab : TabStrategy → Bool
  | .noTab => true
  | _ => false

/-! ## JSON values (what `json.load` / `json.dump` exchange)

Objects carry their key/value pairs in order; values parsed from a file have
unique keys (later duplicates win at parse time), which the definitions below
do not need to assume. -/

inductive Json where
  | null
  | bool (b : Bool)
  | num (q : ℚ)
  | str (s : String)
  | arr (elems : List Json)
  | obj (kvs : List (String × Json))

/-- First-match association lookup (Python dict read on parsed JSON). -/
def objGet (k : String) : List (String × Json) → Option Json
  | [] => none
  | (k', v) :: rest => if k' = k then some v else objGet k rest

/-- Python dict assignment `d[k] = v`: replace in place if present, else append. -/
def dictSet (kvs : List (String × Json)) (k : String) (v : Json) : List (String × Json) :=
  if kvs.any (fun p => p.1 = k) then
    kvs.map (fun p => if p.1 = k then (k, v) else p)
  else kvs ++ [(k, v)]

/-! ## The Google Docs service, modelled as an explicit store

Documents and tabs carry opaque identifiers; the service mints fresh ones on
creation, modelled by counters (`mkDocId`/`mkTabId` produce tokens of strictly
growing length, so a token minted by the model is distinct from previously
minted ones; no theorem below relies on more than that). -/

structure GTab where
  id : String
  title : String
  deriving Repr, DecidableEq

structure GDoc where
  id : String
  title : String
  tabs : List GTab
  deriving Repr, DecidableEq

structure DocsStore where
  docs : List GDoc
  nextDocId : Nat
  nextTabId : Nat
  deriving Repr, DecidableEq

def mkDocId (n : Nat) : String := ⟨List.replicate (n + 1) 'd'⟩
def mkTabId (n : Nat) : String := ⟨List.replicate (n + 1) 't'⟩

/-- `documents().get(documentId=id)`: the service resolves a document id. -/
def getDoc (s : DocsStore) (id : String) : Option GDoc :=
  s.docs.find? (fun d => d.id = id)

/-- `documents().create(body={"title": title})`. -/
def createDoc (s : DocsStore) (title : String) : String × DocsStore :=
  let id := mkDocId s.nextDocId
  (id, { s with docs := s.docs ++ [⟨id, title, []⟩], nextDocId := s.nextDocId + 1 })

def replaceFirstDoc (id : String) (f : GDoc → GDoc) : List GDoc → List GDoc
  | [] => []
  | d :: ds => if d.id = id then f d :: ds else d :: replaceFirstDoc id f ds

/-- `addDocumentTab` on the document `docId` (the service appends the tab and
returns its fresh id); the follow-up header `insertText` only touches tab
content, which this model does not track. -/
def createTab (s : DocsStore) (docId title : String) : String × DocsStore :=
  let tid := mkTabId s.nextTabId
  (tid,
    { s with
      docs := replaceFirstDoc docId (fun d => { d with tabs := d.tabs ++ [⟨tid, title⟩] }) s.docs
      nextTabId := s.nextTabId + 1 })

/-- `_get_existing_tabs` builds `{tab_title: tab_id}` skipping falsy ids or
titles (later tabs overwrite earlier ones in the dict); looking a title up in
that dict equals taking the last kept tab with that title. -/
def tabsLookup (doc : GDoc) (title : String) : Option String :=
  if title = "" then none
  else ((doc.tabs.filter (fun t => t.id ≠ "" ∧ t.title = title)).getLast?).map (fun t => t.id)

/-! ## `GoogleDocsDestination` -/

/-- The configuration facts `_get_or_create_doc` / `_get_or_create_tab` /
`get_cache_key` consult: a truthy `doc_id` entry and the two strategies. -/
structure GDest where
  docId : Option String
  docStrategy : DocStrategy
  tabStrategy : TabStrategy

/-- Destination state across calls: the remote store and the persisted
`docs_by_week.json` file (absent or a parsed JSON value). -/
structure GState where
  store : DocsStore
  docsFile : Option Json

/-- Creation events (ghost instrumentation used only by the theorems; `g` and
`k` record the group and tab keys of the call that created the entity). -/
inductive GEvent where
  | docCreated (g : String) (docId : String)
  | tabCreated (g k : String) (docId : String) (title : String) (tabId : String)

/-- Python `key in v` for a non-dict `v`, followed by the string subscript
`v[key]`: `some b` when the membership test itself returns `b` (element test
on a list, substring test on a string, key test on a dict), `none` when the
membership test raises `TypeError` (non-iterable values). -/
def jsonMemberCheck (k : String) : Json → Option Bool
  | .arr elems => some (elems.any (fun j => match j with | .str s => s = k | _ => false))
  | .str s => some (strContains k s)
  | .obj kvs => some (objGet k kvs).isSome
  | _ => none

/-- The load/migration code raises `TypeError` before any Docs API call: a
non-iterable file makes `"mode" in loaded_map` raise; a list or string file
that passes the `"mode"` membership test is subscripted `loaded_map["mode"]`;
one that passes the `"groups"` test becomes `docs_map` whole and is
subscripted `docs_map["groups"]` at first use. -/
def loadRaises : Option Json → Bool
  | none => false
  | some (Json.obj _) => false
  | some (Json.arr elems) =>
    elems.any (fun j => match j with | .str s => s == "mode" || s == "groups" | _ => false)
  | some (Json.str s) => strContains "mode" s || strContains "groups" s
  | some _ => true

/-- Lines 462-479 of `google_docs.py`: read `docs_by_week.json` and migrate
legacy shapes, producing the in-memory top-level dict (canonical shape
`{"groups": {...}}` unless the file already was canonical, in which case it is
kept whole).  A list or string file falls into the legacy-flat branch and
becomes the `"groups"` value as-is; the remaining non-object files make the
load itself raise (`loadRaises`), so the value given here is never consulted
(`Json.null` keeps `groupsOf` empty for them). -/
def loadDocsMap : Option Json → List (String × Json)
  | none => [("groups", Json.obj [])]
  | some (Json.obj kvs) =>
    match objGet "mode" kvs with
    | some (Json.str "weekly") => [("groups", (objGet "weekly" kvs).getD (Json.obj []))]
    | some (Json.str "single") =>
      [("groups", Json.obj [("single", (objGet "single" kvs).getD Json.null)])]
    | some _ => [("groups", Json.obj [])]
    | none =>
      if (objGet "groups" kvs).isSome then kvs
      else [("groups", Json.obj kvs)]
  | some (Json.arr elems) => [("groups", Json.arr elems)]
  | some (Json.str s) => [("groups", Json.str s)]
  | some _ => [("groups", Json.null)]

/-- The `"groups"` sub-dict of the loaded map, when it is an object. -/
def groupsOf (st : GState) : Option (List (String × Json)) :=
  match objGet "groups" (loadDocsMap st.docsFile) with
  | some (Json.obj gs) => some gs
  | _ => none

/-- `GoogleDocsDestination._get_or_create_doc`.  Returns the doc id, the new
state and the creation events.  An exception carries the state and events
reached when it is raised: on a persisted map whose `"groups"` value is not a
dict, the source raises only at `docs_map["groups"][group_key] = doc_id` —
after `documents().create` has already run — so that path carries the created
document and its creation event, while every raise before the create (the
load itself, or the membership test / subscript on the bad value) leaves the
state untouched.  A non-string mapped id is returned as-is by the source and
makes the per-memo call fail at the next API use; the model raises at the
same call. -/
def getOrCreateDoc (dest : GDest) (st : GState) (dt : PyDateTime) (md : Metadata) :
    Except (GState × List GEvent) (String × GState × List GEvent) :=
  match dest.docId with
  | some did => .ok (did, st, [])
  | none =>
    let groupKey := docGroupKey dest.docStrategy dt md
    if loadRaises st.docsFile then .error (st, [])
    else
      let top := loadDocsMap st.docsFile
      match objGet "groups" top with
      | some (Json.obj groups) =>
        match objGet groupKey groups with
        | some (Json.str did) => .ok (did, st, [])
        | some _ => .error (st, [])
        | none =>
          let title := docTitle dest.docStrategy groupKey
          let (did, store') := createDoc st.store title
          let groups' := dictSet groups groupKey (Json.str did)
          let top' := dictSet top "groups" (Json.obj groups')
          .ok (did, ⟨store', some (Json.obj top')⟩, [.docCreated groupKey did])
      | some v =>
        match jsonMemberCheck groupKey v with
        | none => .error (st, [])
        | some true => .error (st, [])
        | some false =>
          let title := docTitle dest.docStrategy groupKey
          let (did, store') := createDoc st.store title
          .error (⟨store', st.docsFile⟩, [.docCreated groupKey did])
      | none => .error (st, [])

/-- `GoogleDocsDestination._get_or_create_tab`.  `gkey` is ghost data recorded
in the creation event only.  `.error ()` stands for the API failure when
`documents().get` is called with an id the service does not know. -/
def getOrCreateTab (dest : GDest) (st : GState) (gkey docId : String)
    (dt : PyDateTime) (md : Metadata) :
    Except Unit (Option String × GState × List GEvent) :=
  if dest.tabStrategy.isNoTab then .ok (none, st, [])
  else
    let tabKey := getTabKey dest.tabStrategy dt md
    let tabTitle := getTabTitle dest.tabStrategy tabKey dt
    match getDoc st.store docId with
    | none => .error ()
    | some doc =>
      match tabsLookup doc tabTitle with
      | some tid => .ok (some tid, st, [])
      | none =>
        let (tid, store') := createTab st.store docId tabTitle
        .ok (some tid, { st with store := store' },
          [.tabCreated gkey tabKey docId tabTitle tid])

/-- Result and effect of one `prepare_for_memo` call. -/
structure PrepOut where
  res : Except Unit (String × Option String)
  st : GState
  events : List GEvent

/-- `GoogleDocsDestination.prepare_for_memo` (the session string is
`"doc_id:tab_id"`, or `doc_id` alone in no-tabs mode; the resolved pair is
returned directly).  On a per-item exception the orchestrator keeps the state
reached so far, which `st` reports faithfully. -/
def prepareForMemo (dest : GDest) (st : GState) (dt : PyDateTime) (md : Metadata) : PrepOut :=
  match getOrCreateDoc dest st dt md with
  | .error e => ⟨.error (), e.1, e.2⟩
  | .ok (did, st1, evs1) =>
    match getOrCreateTab dest st1 (docGroupKey dest.docStrategy dt md) did dt md with
    | .error _ => ⟨.error (), st1, evs1⟩
    | .ok (ot, st2, evs2) => ⟨.ok (did, ot), st2, evs1 ++ evs2⟩

/-- `GoogleDocsDestination.get_cache_key`. -/
def getCacheKey (dest : GDest) (dt : PyDateTime) (md : Metadata) : String :=
  let docKey := if dest.docId.isSome then "single_doc" else docGroupKey dest.docStrategy dt md
  let tabKey := if dest.tabStrategy.isNoTab then "" else getTabKey dest.tabStrategy dt md
  if tabKey ≠ "" then docKey ++ ":" ++ tabKey else docKey

/-- A run: `prepare_for_memo` called for each `(timestamp, metadata)` input in
turn (a failed call is the orchestrator catching the per-item exception and
moving on).  Yields the final state, the per-call results in order, and all
creation events. -/
def runP (dest : GDest) : GState → List (PyDateTime × Metadata) →
    GState × List (Except Unit (String × Option String)) × List GEvent
  | st, [] => (st, [], [])
  | st, (dt, md) :: rest =>
    let p := prepareForMemo dest st dt md
    let (st', rs, evs) := runP dest p.st rest
    (st', p.res :: rs, p.events ++ evs)

def isDocEvtFor (g : String) : GEvent → Bool
  | .docCreated g' _ => g' = g
  | _ => false

def isTabEvtFor (g k : String) : GEvent → Bool
  | .tabCreated g' k' _ _ _ => g' = g ∧ k' = k
  | _ => false

/-- Number of document creations recorded for group key `g`. -/
def countDocCreations (g : String) (evs : List GEvent) : Nat :=
  (evs.filter (isDocEvtFor g)).length

/-- Number of tab creations recorded for the (group key, tab key) pair. -/
def countTabCreations (g k : String) (evs : List GEvent) : Nat :=
  (evs.filter (isTabEvtFor g k)).length

/-- Healthy destination state: the loaded `"groups"` value is an object whose
entries are string ids of documents the service knows, and a configured
`doc_id` exists on the service.  Holds for the empty state and is preserved by
runs. -/
def StateOk (dest : GDest) (st : GState) : Prop :=
  (∃ gs, groupsOf st = some gs ∧
    ∀ p ∈ gs, ∃ s, p.2 = Json.str s ∧ ∃ doc ∈ st.store.docs, doc.id = s) ∧
  (∀ d, dest.docId = some d → ∃ doc ∈ st.store.docs, doc.id = d)

/-- The state of a first run: no documents, no persisted map. -/
def emptyGState : GState := ⟨⟨[], 0, 0⟩, none⟩

/-! ## `destinations/utils.py`: `extract_audio_metadata`

The `subprocess.run` call and the shape of ffprobe's stdout are environment
inputs.  Uncaught Python exceptions (`AttributeError`, `TypeError`) are the
`.error` outcome; everything listed in the function's `except` clause is
caught and yields `.ok`. -/

inductive PyExc where
  | attributeError
  | typeError
  deriving Repr, DecidableEq

/-- Outcome of the `subprocess.run(["ffprobe", ...])` call: the three caught
exception families, or completion with a return code and (when the code is 0
and the stdout is inspected) the result of `json.loads` — `none` models a
`json.JSONDecodeError`, which is caught. -/
inductive FfprobeRun where
  | timeoutExpired
  | subprocessErr
  | fileNotFound
  | completed (returncode : Int) (parsed : Option Json)

/-- Python `key in x` on a parsed JSON value. -/
def pyContains (key : String) : Json → Except PyExc Bool
  | .obj kvs => .ok (objGet key kvs).isSome
  | .arr xs => .ok (xs.any (fun j => match j with | .str s => s = key | _ => false))
  | .str s => .ok (strContains key s)
  | _ => .error .typeError

/-- Python `x[key]` with a string subscript on a parsed JSON value (only used
after a successful membership test, so the dict branch never misses). -/
def pySubscript (key : String) : Json → Except PyExc Json
  | .obj kvs => match objGet key kvs with | some v => .ok v | none => .error .typeError
  | _ => .error .typeError

/-- Python `x.get(key, default)`: only dicts have `.get`. -/
def pyGet (key : String) (dflt : Json) : Json → Except PyExc Json
  | .obj kvs => .ok ((objGet key kvs).getD dflt)
  | _ => .error .attributeError

/-- Python `float(x)` on a parsed JSON value; `parseFloat` models the float
literal parser on strings; `none` is the ValueError/TypeError the source
catches around the conversion. -/
def pyFloat (parseFloat : String → Option ℚ) : Json → Option ℚ
  | .num q => some q
  | .bool b => some (if b then 1 else 0)
  | .str s => parseFloat s
  | _ => none

/-- `destinations.utils.extract_audio_metadata`; the returned dict is the list
of fields assigned, in assignment order. -/
def extract_audio_metadata (parseFloat : String → Option ℚ) (run : FfprobeRun) :
    Except PyExc (List (String × Json)) :=
  match run with
  | .timeoutExpired => .ok []
  | .subprocessErr => .ok []
  | .fileNotFound => .ok []
  | .completed rc parsed =>
    if rc ≠ 0 then .ok []
    else
      match parsed with
      | none => .ok []
      | some data => do
        let fmt ← pyGet "format" (Json.obj []) data
        let format_tags ← pyGet "tags" (Json.obj []) fmt
        let hasTitle ← pyContains "title" format_tags
        let m1 ← if hasTitle then do
            let v ← pySubscript "title" format_tags
            pure [("title", v)]
          else do
            let hasTIT2 ← pyContains "TIT2" format_tags
            if hasTIT2 then do
              let v ← pySubscript "TIT2" format_tags
              pure [("title", v)]
            else pure []
        let hasDur ← pyContains "duration" fmt
        let m2 ← if hasDur then do
            let v ← pySubscript "duration" fmt
            pure (match pyFloat parseFloat v with
                  | some q => m1 ++ [("duration", Json.num q)]
                  | none => m1)
          else pure m1
        let hasCT ← pyContains "creation_time" format_tags
        let m3 ← if hasCT then do
            let v ← pySubscript "creation_time" format_tags
            pure (m2 ++ [("creation_time", v)])
          else pure m2
        let hasEnc ← pyContains "encoder" format_tags
        if hasEnc then do
          let enc ← pySubscript "encoder" format_tags
          let c1 ← pyContains "iPhone" enc
          let isDev ← if c1 then pure true else pyContains "iPad" enc
          if isDev then pure (m3 ++ [("device", enc)]) else pure m3
        else pure m3

/-- `destinations.utils.format_duration` (`int()` truncation equals `floor`
on the nonnegative durations that occur). -/
def format_duration (seconds : ℚ) : String :=
  let totalSeconds := seconds.floor.toNat
  let hours := totalSeconds / 3600
  let minutes := totalSeconds % 3600 / 60
  let secs := totalSeconds % 60
  if hours > 0 then
    natToString hours ++ "h " ++ natToString minutes ++ "m " ++ natToString secs ++ "s"
  else if minutes > 0 then natToString minutes ++ "m " ++ natToString secs ++ "s"
  else natToString secs ++ "s"

/-! ## `destinations/obsidian.py`

Markdown files are modelled as lists of newline-terminated lines (the file's
text is the concatenation of each line followed by `"\n"`; every write in the
source produces newline-terminated text, and a transcript is passed as its
list of newline-separated pieces). -/

structure ObsCfg where
  organizeBy : String := "daily"
  dateFormat : String := "%Y-%m-%d"
  includeFrontmatter : Bool := true
  includeTags : Bool := true
  includeMetadata : Bool := true

/-- Python `date.isocalendar()[:2]`: ISO year and week number (the week of a
date's Thursday determines both). -/
def isoYearWeek (rd : Nat) : Nat × Nat :=
  let wd := (rd + 6) % 7
  let thursday := rd - wd + 3
  let y := (civilFromDays thursday).1
  (y, (thursday - daysFromCivil y 1 1) / 7 + 1)

/-- `ObsidianDestination._create_file_with_header` (the written text, as lines). -/
def createFileWithHeaderLines (cfg : ObsCfg) (date : PyDateTime) (organizeBy : String) :
    List String :=
  (if cfg.includeFrontmatter then
    ["---", "date: " ++ strftime "%Y-%m-%d" date, "type: voice-memo-transcript"]
    ++ (if cfg.includeTags then ["tags: [voice-memo]"] else [])
    ++ (if organizeBy = "weekly" then
          let monday := subDays date (pyWeekday date)
          let yw := isoYearWeek monday.days
          ["week: " ++ natToString yw.1 ++ "-W" ++ pad2 yw.2]
        else [])
    ++ ["memo_count: 0", "---", ""]
   else [])
  ++ [(if organizeBy = "weekly" then
        "# Voice Memos - Week of " ++ strftime "%B %d, %Y" (subDays date (pyWeekday date))
      else "# Voice Memos - " ++ strftime "%B %d, %Y" date), ""]

/-- Escaping in `_format_transcript_entry`: backslashes and backticks. -/
def escapeMd (s : String) : String := (s.replace "\\" "\\\\").replace "\x60" "\\\x60"

/-- `ObsidianDestination._format_transcript_entry` (the appended text, as lines). -/
def formatTranscriptEntryLines (memoName timestamp : String) (transcriptLines : List String)
    (md : Metadata) : List String :=
  ["---", "", "## " ++ escapeMd (md.title.getD memoName), "", "**Recorded:** " ++ timestamp]
  ++ (match md.duration with
      | some d => ["**Duration:** " ++ format_duration d]
      | none => [])
  ++ (match md.device with
      | some dev => ["**Device:** " ++ dev]
      | none => [])
  ++ [""] ++ transcriptLines ++ [""]

def isDigitCh (c : Char) : Bool := '0' ≤ c && c ≤ '9'

/-- Regex `\s` restricted to characters that can occur inside one line. -/
def isSpaceCh (c : Char) : Bool :=
  c == ' ' || c == '\t' || c == '\r' || c == '\x0b' || c == '\x0c'

/-- A full line matching `memo_count:\s*\d+` (the regex's group 2 together
with the surrounding `\n`s forces the line to have exactly this shape). -/
def isCountLine (s : String) : Bool :=
  listStarts "memo_count:".data s.data &&
  (let ds := (s.data.drop 11).dropWhile isSpaceCh
   !ds.isEmpty && ds.all isDigitCh)

/-- The line contributes a `---\n` occurrence (ends with `---`). -/
def lineEndsDash (s : String) : Bool := listStarts ['-', '-', '-'] s.data.reverse

/-- The line starts with `---` (a position where the regex's closing `---`
can match). -/
def lineStartsDash (s : String) : Bool := listStarts ['-', '-', '-'] s.data

/-- Within the lines after a matched `---\n`, rewrite the first
`memo_count:\s*\d+` line that still has a later `---`-starting line (the lazy
`(?:.*\n)*?` groups), to `memo_count: n`. -/
def replaceCountAfter (n : Nat) : List String → Option (List String)
  | [] => none
  | l :: rest =>
    if isCountLine l ∧ rest.any lineStartsDash then
      some (("memo_count: " ++ natToString n) :: rest)
    else (replaceCountAfter n rest).map (fun r => l :: r)

/-- Effect on the line list of
`re.sub(r"(---\n(?:.*\n)*?)(memo_count:\s*\d+)(\n(?:.*\n)*?---)", repl, content, count=1)`:
from the leftmost `---\n` occurrence at which the whole pattern matches,
rewrite the counter line; if no position matches, the content is unchanged. -/
def updateMemoCountLines (n : Nat) : List String → List String
  | [] => []
  | l :: rest =>
    if lineEndsDash l then
      match replaceCountAfter n rest with
      | some rest' => l :: rest'
      | none => l :: updateMemoCountLines n rest
    else l :: updateMemoCountLines n rest

/-- After a marker occurrence inside a line, the rest of that line (model of
`content.index("memo_count: ")` followed by reading up to the next `\n`;
the marker contains no newline, so it lies within a single line). -/
def afterMarker (pat : List Char) : List Char → Option (List Char)
  | [] => none
  | s =>
    match s with
    | [] => none
    | _ :: rest => if listStarts pat s then some (s.drop pat.length) else afterMarker pat rest

/-- Python `int(str)` for the nonnegative forms that occur here: strip
whitespace, then a nonempty digit run; anything else is the caught ValueError. -/
def pyIntDigits (cs : List Char) : Option Nat :=
  let t := ((cs.dropWhile isSpaceCh).reverse.dropWhile isSpaceCh).reverse
  if !t.isEmpty && t.all isDigitCh then
    some (t.foldl (fun acc c => acc * 10 + (c.toNat - 48)) 0)
  else none

/-- The cache-miss branch of `_update_memo_count`: extract the current count
from the file content, defaulting to 0 on any parse failure. -/
def parseCountFromLines (ls : List String) : Nat :=
  match ls.findSome? (fun l => afterMarker "memo_count: ".data l.data) with
  | some tail => (pyIntDigits tail).getD 0
  | none => 0

/-- In-memory state for one markdown file: its lines and this file's entry in
`self.memo_count`. -/
structure ObsFileState where
  lines : List String
  cache : Option Nat

/-- `ObsidianDestination._update_memo_count`. -/
def updateMemoCount (cfg : ObsCfg) (s : ObsFileState) : ObsFileState :=
  if cfg.includeFrontmatter = false then s
  else
    let current :=
      match s.cache with
      | some c => c
      | none => parseCountFromLines s.lines
    let newCount := current + 1
    ⟨updateMemoCountLines newCount s.lines, some newCount⟩

/-- `ObsidianDestination.append_transcript`. -/
def appendTranscript (cfg : ObsCfg) (s : ObsFileState) (memoName timestamp : String)
    (transcriptLines : List String) (md : Metadata) : ObsFileState :=
  let metadata := if cfg.includeMetadata then md else {}
  let entry := formatTranscriptEntryLines memoName timestamp transcriptLines metadata
  updateMemoCount cfg { s with lines := s.lines ++ entry }

/-- `ObsidianDestination.prepare_for_memo` in the case the target file does
not exist yet: create it (weekly mode passes the Monday) and initialise this
file's `memo_count` entry to 0. -/
def prepareFreshObs (cfg : ObsCfg) (dt : PyDateTime) : ObsFileState :=
  if cfg.organizeBy = "weekly" then
    ⟨createFileWithHeaderLines cfg (subDays dt (pyWeekday dt)) "weekly", some 0⟩
  else
    ⟨createFileWithHeaderLines cfg dt "daily", some 0⟩

structure ObsEntry where
  memoName : String
  timestamp : String
  transcriptLines : List String
  md : Metadata

/-- `append_transcript` called once per entry, in order. -/
def appendAll (cfg : ObsCfg) : ObsFileState → List ObsEntry → ObsFileState
  | s, [] => s
  | s, e :: rest =>
    appendAll cfg (appendTranscript cfg s e.memoName e.timestamp e.transcriptLines e.md) rest

/-! ## `transcribe_memos.py` -/

/-- `transcribe_memos.get_monday_of_week` (the legacy orchestrator's copy). -/
def get_monday_of_week (date : PyDateTime) : String :=
  strftime "%Y-%m-%d" (subDays date (pyWeekday date))

/-- `GoogleDocsDestination._get_monday_of_week`. -/
def GoogleDocsDestination.get_monday_of_week (date : PyDateTime) : String :=
  strftime "%Y-%m-%d" (subDays date (pyWeekday date))

/-- One discovered audio file: path, stem and the `datetime` obtained from
its modification time. -/
structure MemoFile where
  path : String
  stem : String
  mtime : PyDateTime
  deriving Repr, DecidableEq

def PyDateTime.toSeconds (dt : PyDateTime) : Nat :=
  ((dt.days * 24 + dt.hour) * 60 + dt.minute) * 60 + dt.second

/-- Chronological comparison of datetimes (Python's field-lexicographic
`datetime` order coincides with second-count order for in-range clock fields). -/
def dtLe (a b : PyDateTime) : Bool := a.toSeconds ≤ b.toSeconds

/-- `transcribe_memos.find_new_memos`: keep the files whose hash is not in the
processed set, then `list.sort(key=lambda x: x[2])`.  `hashOf` models
`get_file_hash` (an md5 of path and mtime, opaque here); `files` is the
`glob` enumeration. -/
def find_new_memos (hashOf : MemoFile → String) (processed : List String)
    (files : List MemoFile) : List MemoFile :=
  (files.filter (fun f => ¬ processed.contains (hashOf f))).mergeSort
    (fun a b => dtLe a.mtime b.mtime)

/-- The two exception families `main`'s per-item handlers distinguish. -/
inductive PyErr where
  | valueError (msg : String)
  | otherExc
  deriving Repr, DecidableEq

/-- Environment behaviour for one item of `main`'s loop: the file size, and
the outcomes of the document-preparation, transcription and append calls.
`append_to_doc` only performs Google API calls, so its failures are service
errors, never the `ValueError("Corrupted audio file: ...")` that only
`transcribe_openai`'s validation constructs. -/
structure ItemOutcome where
  fileSize : Nat
  docPrep : Except PyErr String
  transcribeRes : Except PyErr String
  appendOk : Bool

structure ItemResult where
  marked : Bool
  success : Bool
  failed : Bool
  deriving Repr, DecidableEq

/-- The `try` body of `main`'s loop for one item (after the size check):
prepare the document, transcribe, then append. -/
def runItemBody (o : ItemOutcome) : Except PyErr Unit :=
  match o.docPrep with
  | .error e => .error e
  | .ok _ =>
    match o.transcribeRes with
    | .error e => .error e
    | .ok _ => if o.appendOk then .ok () else .error .otherExc

/-- One iteration of `main`'s loop: the size check marks tiny files processed;
the `except ValueError` handler marks the item processed exactly when the
message contains `"Corrupted audio file"`; every other failure leaves it
unmarked; full success marks it. -/
def processItem (o : ItemOutcome) : ItemResult :=
  if o.fileSize < 1000 then ⟨true, false, false⟩
  else
    match runItemBody o with
    | .ok _ => ⟨true, true, false⟩
    | .error (.valueError msg) =>
      if strContains "Corrupted audio file" msg then ⟨true, false, true⟩
      else ⟨false, false, true⟩
    | .error .otherExc => ⟨false, false, true⟩

/-- Set insertion into the persisted processed list. -/
def addHash (processed : List String) (h : String) : List String :=
  if processed.contains h then processed else processed ++ [h]

/-- `main`'s loop over the discovered items: visits them in list order,
returning the visit order (by stem) and the final processed set. -/
def runItems (hashOf : MemoFile → String) :
    List (MemoFile × ItemOutcome) → List String → List String × List String
  | [], processed => ([], processed)
  | (f, o) :: rest, processed =>
    let r := processItem o
    let processed' := if r.marked then addHash processed (hashOf f) else processed
    let (vis, pfin) := runItems hashOf rest processed'
    (f.stem :: vis, pfin)

/-! ## Decompositions and concrete instances used by the theorems -/

/-- The date `_create_file_with_header` receives from `prepare_for_memo`. -/
def obsDate (cfg : ObsCfg) (dt : PyDateTime) : PyDateTime :=
  if cfg.organizeBy = "weekly" then subDays dt (pyWeekday dt) else dt

def obsOrg (cfg : ObsCfg) : String :=
  if cfg.organizeBy = "weekly" then "weekly" else "daily"

/-- The frontmatter lines of a fresh file above the `memo_count` line. -/
def obsFrontTail (cfg : ObsCfg) (dt : PyDateTime) : List String :=
  ["date: " ++ strftime "%Y-%m-%d" (obsDate cfg dt), "type: voice-memo-transcript"]
  ++ (if cfg.includeTags then ["tags: [voice-memo]"] else [])
  ++ (if obsOrg cfg = "weekly" then
        let monday := subDays (obsDate cfg dt) (pyWeekday (obsDate cfg dt))
        let yw := isoYearWeek monday.days
        ["week: " ++ natToString yw.1 ++ "-W" ++ pad2 yw.2]
      else [])

/-- The heading lines of a fresh file (after the closing `---` and blank). -/
def obsHeaderLines (cfg : ObsCfg) (dt : PyDateTime) : List String :=
  [(if obsOrg cfg = "weekly" then
      "# Voice Memos - Week of "
        ++ strftime "%B %d, %Y" (subDays (obsDate cfg dt) (pyWeekday (obsDate cfg dt)))
    else "# Voice Memos - " ++ strftime "%B %d, %Y" (obsDate cfg dt)), ""]

/-- The body an entry contributes, after the metadata-toggle of
`append_transcript`. -/
def obsEntryLines (cfg : ObsCfg) (e : ObsEntry) : List String :=
  formatTranscriptEntryLines e.memoName e.timestamp e.transcriptLines
    (if cfg.includeMetadata then e.md else {})

/-- A destination whose daily tab titles carry the hour: a configuration
accepted by `_create_tab_grouping_strategy` (`tab_grouping: daily`,
`tab_date_format: "%H"`) under which tab-title reuse does not coincide with
tab-key reuse. -/
def cxDest : GDest := ⟨none, .single, .daily "%H"⟩

/-- Two memos recorded the same day at 09:00 and 15:00. -/
def cxInputs : List (PyDateTime × Metadata) :=
  [(mkDT 2025 1 30 9 0 0, {}), (mkDT 2025 1 30 15 0 0, {})]

/-- A destination used to witness the corrected C1/C2 statements: single doc
grouping with time-of-day tabs (tab titles are functions of the tab key). -/
def wDest : GDest :=
  ⟨none, .single, .timeOfDay [("Morning", 6, 12), ("Afternoon", 12, 18),
    ("Evening", 18, 24), ("Night", 0, 6)]⟩

/-- Group key of an input under a destination's document strategy. -/
def gkOf (dest : GDest) (dt : PyDateTime) (md : Metadata) : String :=
  docGroupKey dest.docStrategy dt md

/-- Tab key of an input under a destination's tab strategy. -/
def tkOf (dest : GDest) (dt : PyDateTime) (md : Metadata) : String :=
  getTabKey dest.tabStrategy dt md

/-- Tab title of an input (derived from its tab key and datetime). -/
def ttOf (dest : GDest) (dt : PyDateTime) (md : Metadata) : String :=
  getTabTitle dest.tabStrategy (tkOf dest dt md) dt

/-- The persisted map binds group key `g` to document id `did`. -/
def docAssigned (st : GState) (g did : String) : Prop :=
  ∃ gs, groupsOf st = some gs ∧ objGet g gs = some (Json.str did)

/-- The persisted map has some entry for group key `g`. -/
def groupBound (st : GState) (g : String) : Prop :=
  ∃ gs v, groupsOf st = some gs ∧ objGet g gs = some v

/-- Document `did` exists and its title dict maps `T` to tab `tid`. -/
def titleAssigned (st : GState) (did T tid : String) : Prop :=
  ∃ doc, getDoc st.store did = some doc ∧ tabsLookup doc T = some tid

/-- The document a group key resolves to: the configured `doc_id` when one is
set, else the persisted map's entry for `g`. -/
def resolvedDoc (dest : GDest) (st : GState) (g did : String) : Prop :=
  (∀ d, dest.docId = some d → did = d) ∧ (dest.docId = none → docAssigned st g did)

/-- The pair `(did, ot)` is what `prepare_for_memo` resolves for any input
with group key `g` and tab title `T`: the document is resolved, and either
tabs are off (`ot = none`) or the title dict of `did` maps `T` to the tab. -/
def pairResolved (dest : GDest) (st : GState) (g did : String) (ot : Option String)
    (T : String) : Prop :=
  resolvedDoc dest st g did ∧
  ((dest.tabStrategy.isNoTab = true ∧ ot = none) ∨
   (dest.tabStrategy.isNoTab = false ∧
     ∃ tid, ot = some tid ∧ titleAssigned st did T tid))

/-! # Theorems -/

/-! ## General helper lemmas -/

theorem strData_append (a b : String) : (a ++ b).data = a.data ++ b.data := rfl

/-! ## Lemmas about the JSON dictionary operations and the map loader -/

theorem objGet_append_left {kvs : List (String × Json)} {k : String} {v : Json}
    (kvs' : List (String × Json)) (h : objGet k kvs = some v) :
    objGet k (kvs ++ kvs') = some v := by
  induction kvs with
  | nil => simp [objGet] at h
  | cons a rest ih =>
    simp only [objGet, List.cons_append] at *
    by_cases ha : a.1 = k
    · simpa [ha] using h
    · rw [if_neg ha] at h ⊢
      exact ih h

theorem objGet_append_of_none {kvs : List (String × Json)} {k : String}
    (kvs' : List (String × Json)) (h : objGet k kvs = none) :
    objGet k (kvs ++ kvs') = objGet k kvs' := by
  induction kvs with
  | nil => rfl
  | cons a rest ih =>
    simp only [objGet, List.cons_append] at *
    by_cases ha : a.1 = k
    · simp [ha] at h
    · rw [if_neg ha] at h ⊢
      exact ih h

theorem objGet_eq_none_any {kvs : List (String × Json)} {k : String}
    (h : objGet k kvs = none) : kvs.any (fun p => p.1 = k) = false := by
  induction kvs with
  | nil => rfl
  | cons a rest ih =>
    simp only [objGet] at h
    by_cases ha : a.1 = k
    · simp [ha] at h
    · rw [if_neg ha] at h
      simp [List.any_cons, ha, ih h]

theorem objGet_of_any_eq_false {kvs : List (String × Json)} {k : String}
    (h : kvs.any (fun p => p.1 = k) = false) : objGet k kvs = none := by
  induction kvs with
  | nil => rfl
  | cons a rest ih =>
    simp only [List.any_cons, Bool.or_eq_false_iff, decide_eq_false_iff_not] at h
    simp only [objGet, if_neg h.1]
    exact ih h.2

theorem dictSet_of_none {kvs : List (String × Json)} {k : String} (v : Json)
    (h : objGet k kvs = none) : dictSet kvs k v = kvs ++ [(k, v)] := by
  unfold dictSet
  rw [objGet_eq_none_any h]
  simp

theorem map_set_id {k : String} {v : Json} {kvs : List (String × Json)}
    (h : kvs.any (fun p => p.1 = k) = false) :
    kvs.map (fun p => if p.1 = k then (k, v) else p) = kvs := by
  induction kvs with
  | nil => rfl
  | cons a rest ih =>
    simp only [List.any_cons, Bool.or_eq_false_iff, decide_eq_false_iff_not] at h
    rw [List.map_cons, if_neg h.1, ih h.2]

theorem objGet_map_set_self {k : String} {v : Json} {kvs : List (String × Json)}
    (h : kvs.any (fun p => p.1 = k) = true) :
    objGet k (kvs.map (fun p => if p.1 = k then (k, v) else p)) = some v := by
  induction kvs with
  | nil => simp at h
  | cons a rest ih =>
    by_cases ha : a.1 = k
    · rw [List.map_cons, if_pos ha]
      simp [objGet]
    · rw [List.map_cons, if_neg ha]
      simp only [objGet, if_neg ha]
      apply ih
      rcases (by simpa using h : a.1 = k ∨ rest.any (fun p => p.1 = k) = true) with h' | h'
      · exact absurd h' ha
      · simpa using h'

theorem objGet_map_set_other {k k' : String} (h : k' ≠ k) (v : Json)
    (kvs : List (String × Json)) :
    objGet k' (kvs.map (fun p => if p.1 = k then (k, v) else p)) = objGet k' kvs := by
  induction kvs with
  | nil => rfl
  | cons a rest ih =>
    by_cases ha : a.1 = k
    · rw [List.map_cons, if_pos ha]
      simp only [objGet, if_neg (fun hh : k = k' => h hh.symm),
        if_neg (ha ▸ (fun hh : a.1 = k' => h (hh ▸ ha.symm ▸ rfl)) : ¬a.1 = k')]
      exact ih
    · rw [List.map_cons, if_neg ha]
      simp only [objGet]
      by_cases hk' : a.1 = k'
      · rw [if_pos hk', if_pos hk']
      · rw [if_neg hk', if_neg hk']
        exact ih

theorem objGet_dictSet_self (kvs : List (String × Json)) (k : String) (v : Json) :
    objGet k (dictSet kvs k v) = some v := by
  unfold dictSet
  by_cases h : kvs.any (fun p => p.1 = k)
  · rw [if_pos h]
    exact objGet_map_set_self h
  · rw [if_neg h]
    have h' : kvs.any (fun p => p.1 = k) = false := by
      revert h; cases kvs.any (fun p => p.1 = k) <;> simp
    rw [objGet_append_of_none _ (objGet_of_any_eq_false h')]
    simp [objGet]

theorem objGet_dictSet_other {k k' : String} (h : k' ≠ k) (kvs : List (String × Json)) (v : Json) :
    objGet k' (dictSet kvs k v) = objGet k' kvs := by
  unfold dictSet
  by_cases ha : kvs.any (fun p => p.1 = k)
  · rw [if_pos ha]
    exact objGet_map_set_other h v kvs
  · rw [if_neg ha]
    by_cases hn : objGet k' kvs = none
    · rw [objGet_append_of_none _ hn, hn]
      simp only [objGet, if_neg (fun hh : k = k' => h hh.symm)]
    · rcases Option.ne_none_iff_exists'.mp hn with ⟨v', hv'⟩
      rw [objGet_append_left _ hv', hv']

theorem loadDocsMap_mode_none (f : Option Json) : objGet "mode" (loadDocsMap f) = none := by
  unfold loadDocsMap
  split
  · rfl
  · split
    · rfl
    · rfl
    · rfl
    · split
      · next kvs _ hm _ => exact hm
      · rfl
  all_goals rfl

theorem loadDocsMap_groups_isSome (f : Option Json) :
    (objGet "groups" (loadDocsMap f)).isSome = true := by
  unfold loadDocsMap
  split
  · rfl
  · split
    · rfl
    · rfl
    · rfl
    · split
      · next h => exact h
      · rfl
  all_goals rfl

theorem loadDocsMap_canonical {kvs : List (String × Json)}
    (h1 : objGet "mode" kvs = none) (h2 : (objGet "groups" kvs).isSome = true) :
    loadDocsMap (some (Json.obj kvs)) = kvs := by
  simp only [loadDocsMap]
  rw [h1]
  simp only [h2, if_true]

theorem loadDocsMap_reload (f : Option Json) (v : Json) :
    loadDocsMap (some (Json.obj (dictSet (loadDocsMap f) "groups" v))) =
      dictSet (loadDocsMap f) "groups" v := by
  apply loadDocsMap_canonical
  · rw [objGet_dictSet_other (by decide) _ v]
    exact loadDocsMap_mode_none f
  · rw [objGet_dictSet_self]
    rfl

/-! ## C10 — the three Monday-of-week implementations agree -/

/-- C10: for every datetime, `transcribe_memos.get_monday_of_week`,
`GoogleDocsDestination._get_monday_of_week` and
`WeeklyDocGrouping.get_group_key` return the same `YYYY-MM-DD` string, so the
legacy weekly-document path and the strategy-based path resolve the same group
key for the same date. -/
theorem c10_monday_equivalence :
    ∀ (dt : PyDateTime) (md : Metadata),
      get_monday_of_week dt = GoogleDocsDestination.get_monday_of_week dt ∧
      GoogleDocsDestination.get_monday_of_week dt = WeeklyDocGrouping.get_group_key dt md :=
  fun _ _ => ⟨rfl, rfl⟩

/-! ## C5 — weekly grouping key is the Monday of the week -/

/-- C5: for every valid datetime, `WeeklyDocGrouping.get_group_key` formats
(as `YYYY-MM-DD`, shown by the second conjunct) the Monday of that datetime's
week: the subtracted-to date has weekday 0, lies at most 6 days back at
distance exactly `weekday`, is the date itself on a Monday, and is the unique
such day; concretely, 2025-01-30 (a Thursday, weekday 3) yields group key
"2025-01-27", whose document title is "2025-01-27 Voice Memo Transcripts". -/
theorem c5_weekly_group_key :
    (∀ (dt : PyDateTime) (md : Metadata), 1 ≤ dt.days →
      WeeklyDocGrouping.get_group_key dt md = strftime "%Y-%m-%d" (subDays dt (pyWeekday dt)) ∧
      pyWeekday (subDays dt (pyWeekday dt)) = 0 ∧
      (subDays dt (pyWeekday dt)).days ≤ dt.days ∧
      dt.days - (subDays dt (pyWeekday dt)).days = pyWeekday dt ∧
      pyWeekday dt ≤ 6 ∧
      (pyWeekday dt = 0 → (subDays dt (pyWeekday dt)).days = dt.days) ∧
      (∀ m : Nat, (m + 6) % 7 = 0 → m ≤ dt.days → dt.days < m + 7 →
        m = (subDays dt (pyWeekday dt)).days)) ∧
    (∀ dt : PyDateTime,
      strftime "%Y-%m-%d" dt = natToString dt.year ++ "-" ++ pad2 dt.month ++ "-" ++ pad2 dt.day) ∧
    WeeklyDocGrouping.get_group_key (mkDT 2025 1 30 9 15 0) {} = "2025-01-27" ∧
    pyWeekday (mkDT 2025 1 30 9 15 0) = 3 ∧
    WeeklyDocGrouping.get_doc_title "2025-01-27" = "2025-01-27 Voice Memo Transcripts" := by
  refine ⟨fun dt md h => ⟨rfl, ?_, ?_, ?_, ?_, ?_, ?_⟩, ?_, by decide, by decide, rfl⟩
  · simp only [pyWeekday, subDays]; omega
  · simp only [pyWeekday, subDays]; omega
  · simp only [pyWeekday, subDays]; omega
  · simp only [pyWeekday, subDays]; omega
  · simp only [pyWeekday, subDays]; omega
  · simp only [pyWeekday, subDays]; omega
  · intro dt
    apply String.ext
    simp [strftime, strftimeAux, strftimeDirective, strData_append]

/-- Witness for C5 at the concrete Thursday 2025-01-30. -/
theorem c5_weekly_group_key_witness :
    1 ≤ (mkDT 2025 1 30 9 15 0).days ∧
    pyWeekday (subDays (mkDT 2025 1 30 9 15 0) (pyWeekday (mkDT 2025 1 30 9 15 0))) = 0 :=
  ⟨by decide, ((c5_weekly_group_key.1 (mkDT 2025 1 30 9 15 0) {} (by decide)).2.1)⟩

/-! ## C7 — duration bucket tab key -/

/-- C7: `DurationTabGrouping.get_tab_key` reads the metadata duration
(defaulting to 0 when missing) and returns the name of the first configured
range whose half-open interval contains it, lowercased with spaces replaced by
hyphens, and "unknown" when no range matches; with ranges
{"Quick Notes": (0,120), "Standard": (120,600)}, duration 90 yields
"quick-notes" and duration 700 yields "unknown". -/
theorem c7_duration_bucket_key :
    (∀ (ranges : List (String × ℚ × Option ℚ)) (dt : PyDateTime) (md : Metadata)
        (r : String × ℚ × Option ℚ),
      ranges.find? (fun r => decide (r.2.1 ≤ md.duration.getD 0 ∧
        durLtTop (md.duration.getD 0) r.2.2)) = some r →
      getTabKey (.duration ranges) dt md = normalizeTabName r.1) ∧
    (∀ (ranges : List (String × ℚ × Option ℚ)) (dt : PyDateTime) (md : Metadata),
      ranges.find? (fun r => decide (r.2.1 ≤ md.duration.getD 0 ∧
        durLtTop (md.duration.getD 0) r.2.2)) = none →
      getTabKey (.duration ranges) dt md = "unknown") ∧
    (∀ (ranges : List (String × ℚ × Option ℚ)) (dt : PyDateTime) (md : Metadata),
      md.duration = none →
      getTabKey (.duration ranges) dt md =
        getTabKey (.duration ranges) dt { md with duration := some 0 }) ∧
    getTabKey (.duration [("Quick Notes", (0 : ℚ), some 120), ("Standard", 120, some 600)])
      (mkDT 2025 1 30 9 0 0) { duration := some 90 } = "quick-notes" ∧
    getTabKey (.duration [("Quick Notes", (0 : ℚ), some 120), ("Standard", 120, some 600)])
      (mkDT 2025 1 30 9 0 0) { duration := some 700 } = "unknown" := by
  refine ⟨?_, ?_, ?_, by decide, by decide⟩
  · intro ranges dt md r
    induction ranges with
    | nil => simp
    | cons a rest ih =>
      simp only [List.find?, getTabKey, durationKeyLoop]
      by_cases h : a.2.1 ≤ md.duration.getD 0 ∧ durLtTop (md.duration.getD 0) a.2.2
      · rw [decide_eq_true h, if_pos h]
        intro he; cases he; rfl
      · rw [decide_eq_false h, if_neg h]
        exact ih
  · intro ranges dt md
    induction ranges with
    | nil => intro; rfl
    | cons a rest ih =>
      simp only [List.find?, getTabKey, durationKeyLoop]
      by_cases h : a.2.1 ≤ md.duration.getD 0 ∧ durLtTop (md.duration.getD 0) a.2.2
      · rw [decide_eq_true h]
        simp
      · rw [decide_eq_false h, if_neg h]
        exact ih
  · intro ranges dt md h
    simp [getTabKey, h]

/-- Witness for C7: the 90-second scenario resolved through the first-match
characterisation. -/
theorem c7_duration_bucket_key_witness :
    [("Quick Notes", (0 : ℚ), some 120), ("Standard", 120, some 600)].find?
      (fun r => decide (r.2.1 ≤ (({ duration := some 90 } : Metadata)).duration.getD 0 ∧
        durLtTop ((({ duration := some 90 } : Metadata)).duration.getD 0) r.2.2)) =
      some ("Quick Notes", (0 : ℚ), some 120) ∧
    getTabKey (.duration [("Quick Notes", (0 : ℚ), some 120), ("Standard", 120, some 600)])
      (mkDT 2025 1 30 9 0 0) { duration := some 90 } = normalizeTabName "Quick Notes" :=
  ⟨by decide,
    c7_duration_bucket_key.1 [("Quick Notes", (0 : ℚ), some 120), ("Standard", 120, some 600)]
      (mkDT 2025 1 30 9 0 0) { duration := some 90 } ("Quick Notes", (0 : ℚ), some 120)
      (by decide)⟩

/-! ## C4 — processed-marking policy of `main` -/

/-- C4: in `main`'s per-item loop, a successful transcription followed by a
failed append leaves the item unmarked; a tiny file or a
"Corrupted audio file" `ValueError` marks it processed anyway; any other
per-item failure leaves it unmarked, and an unmarked item is discovered again
by the next `find_new_memos` run. -/
theorem c4_processed_marking :
    (∀ o : ItemOutcome, 1000 ≤ o.fileSize → (∃ d, o.docPrep = .ok d) →
      (∃ t, o.transcribeRes = .ok t) → o.appendOk = false → (processItem o).marked = false) ∧
    (∀ o : ItemOutcome, o.fileSize < 1000 → (processItem o).marked = true) ∧
    (∀ (o : ItemOutcome) (msg : String), 1000 ≤ o.fileSize → (∃ d, o.docPrep = .ok d) →
      o.transcribeRes = .error (.valueError msg) → strContains "Corrupted audio file" msg = true →
      (processItem o).marked = true) ∧
    (∀ (o : ItemOutcome) (e : PyErr), 1000 ≤ o.fileSize → runItemBody o = .error e →
      (∀ msg, e = .valueError msg → strContains "Corrupted audio file" msg = false) →
      (processItem o).marked = false) ∧
    (∀ (hashOf : MemoFile → String) (processed : List String) (files : List MemoFile)
        (f : MemoFile), f ∈ files → processed.contains (hashOf f) = false →
      f ∈ find_new_memos hashOf processed files) := by
  refine ⟨?_, ?_, ?_, ?_, ?_⟩
  · rintro o hs ⟨d, hd⟩ ⟨t, ht⟩ ha
    simp [processItem, runItemBody, hd, ht, ha, Nat.not_lt.mpr hs]
  · intro o hs
    simp [processItem, hs]
  · rintro o msg hs ⟨d, hd⟩ ht hc
    simp [processItem, runItemBody, hd, ht, hc, Nat.not_lt.mpr hs]
  · intro o e hs hb hv
    simp only [processItem, Nat.not_lt.mpr hs, if_false, hb]
    match e, hv with
    | .valueError msg, hv => simp [hv msg rfl]
    | .otherExc, _ => rfl
  · intro hashOf processed files f hf hp
    unfold find_new_memos
    rw [List.Perm.mem_iff (List.mergeSort_perm _ _)]
    simp only [List.mem_filter, decide_eq_true_eq]
    exact ⟨hf, by simpa using hp⟩

/-- Witness for C4: a good-sized item whose transcription succeeds and whose
append fails is not marked processed. -/
theorem c4_processed_marking_witness :
    1000 ≤ (⟨2000, .ok "docid", .ok "some transcript", false⟩ : ItemOutcome).fileSize ∧
    (processItem ⟨2000, .ok "docid", .ok "some transcript", false⟩).marked = false :=
  ⟨by decide,
    c4_processed_marking.1 ⟨2000, .ok "docid", .ok "some transcript", false⟩ (by decide)
      ⟨"docid", rfl⟩ ⟨"some transcript", rfl⟩ rfl⟩

/-! ## C9 — processing order -/

/-- C9: `find_new_memos` returns the unprocessed files sorted by recording
timestamp, oldest first (it is a permutation of the unprocessed filter,
pairwise ordered by `dtLe`), and `main`'s loop visits the returned list in
exactly that order. -/
theorem c9_processing_order :
    (∀ (hashOf : MemoFile → String) (processed : List String) (files : List MemoFile),
      List.Pairwise (fun a b => dtLe a.mtime b.mtime = true)
        (find_new_memos hashOf processed files)) ∧
    (∀ (hashOf : MemoFile → String) (processed : List String) (files : List MemoFile),
      (find_new_memos hashOf processed files).Perm
        (files.filter (fun f => ¬ processed.contains (hashOf f)))) ∧
    (∀ (hashOf : MemoFile → String) (items : List (MemoFile × ItemOutcome))
        (processed : List String),
      (runItems hashOf items processed).1 = items.map (fun p => p.1.stem)) := by
  refine ⟨?_, ?_, ?_⟩
  · intro hashOf processed files
    apply List.sorted_mergeSort
    · intro a b c
      simp only [dtLe, decide_eq_true_eq]
      omega
    · intro a b
      simp only [dtLe, Bool.or_eq_true, decide_eq_true_eq]
      omega
  · intro hashOf processed files
    exact List.mergeSort_perm _ _
  · intro hashOf items processed
    induction items generalizing processed with
    | nil => rfl
    | cons a rest ih => simp [runItems, ih]

/-! ## C8 — the metadata extractor can raise despite its contract -/

/-- C8 (divergence): `extract_audio_metadata` raises `AttributeError` when
ffprobe exits 0 with valid JSON that is not an object (`data.get` on a list),
although every listed failure mode (timeout, subprocess error, missing tool,
non-zero exit, unparseable stdout) does return the empty dict. -/
theorem c8_extractor_divergence :
    extract_audio_metadata (fun _ => none) (.completed 0 (some (Json.arr []))) =
      .error .attributeError ∧
    extract_audio_metadata (fun _ => none) .timeoutExpired = .ok [] ∧
    extract_audio_metadata (fun _ => none) .subprocessErr = .ok [] ∧
    extract_audio_metadata (fun _ => none) .fileNotFound = .ok [] ∧
    extract_audio_metadata (fun _ => none) (.completed 1 (some (Json.obj []))) = .ok [] ∧
    extract_audio_metadata (fun _ => none) (.completed 0 none) = .ok [] :=
  ⟨rfl, rfl, rfl, rfl, rfl, rfl⟩


/-! ## State-machine lemmas for the Google Docs destination -/

theorem groupsOf_eq_some {st : GState} {gs : List (String × Json)}
    (h : objGet "groups" (loadDocsMap st.docsFile) = some (Json.obj gs)) :
    groupsOf st = some gs := by
  unfold groupsOf
  rw [h]

theorem groupsOf_some_elim {st : GState} {gs : List (String × Json)}
    (h : groupsOf st = some gs) :
    objGet "groups" (loadDocsMap st.docsFile) = some (Json.obj gs) := by
  unfold groupsOf at h
  rcases hh : objGet "groups" (loadDocsMap st.docsFile) with _ | v
  · rw [hh] at h; cases h
  · rw [hh] at h
    cases v <;> simp_all

theorem gocd_cases {dest : GDest} {st : GState} {dt : PyDateTime} {md : Metadata}
    {did : String} {st1 : GState} {evs : List GEvent}
    (h : getOrCreateDoc dest st dt md = .ok (did, st1, evs)) :
    (st1 = st ∧ evs = [] ∧
      (dest.docId = some did ∨ (dest.docId = none ∧ docAssigned st (gkOf dest dt md) did))) ∨
    (dest.docId = none ∧ evs = [.docCreated (gkOf dest dt md) did] ∧
      did = mkDocId st.store.nextDocId ∧
      st1.store.docs = st.store.docs ++
        [⟨did, docTitle dest.docStrategy (gkOf dest dt md), []⟩] ∧
      st1.store.nextDocId = st.store.nextDocId + 1 ∧
      st1.store.nextTabId = st.store.nextTabId ∧
      ∃ gs, groupsOf st = some gs ∧ objGet (gkOf dest dt md) gs = none ∧
        groupsOf st1 = some (gs ++ [(gkOf dest dt md, Json.str did)])) := by
  unfold getOrCreateDoc at h
  split at h
  · next d hcfg =>
    simp only [Except.ok.injEq, Prod.mk.injEq] at h
    obtain ⟨h1, h2, h3⟩ := h
    exact .inl ⟨h2.symm, h3.symm, .inl (h1 ▸ hcfg)⟩
  · next hcfg =>
    by_cases hlr : loadRaises st.docsFile
    · rw [if_pos hlr] at h
      cases h
    · rw [if_neg hlr] at h
      dsimp only [] at h
      split at h
      · next groups hg =>
        split at h
        · next did' hdid =>
          simp only [Except.ok.injEq, Prod.mk.injEq] at h
          refine .inl ⟨h.2.1.symm, h.2.2.symm, .inr ⟨hcfg, groups, groupsOf_eq_some hg, ?_⟩⟩
          rw [← h.1]; exact hdid
        · next _ _ => cases h
        · next hnone =>
          simp only [createDoc, Except.ok.injEq, Prod.mk.injEq] at h
          obtain ⟨h1, h2, h3⟩ := h
          subst h1 h2 h3
          refine .inr ⟨hcfg, rfl, rfl, rfl, rfl, rfl, groups, groupsOf_eq_some hg, hnone, ?_⟩
          apply groupsOf_eq_some
          show objGet "groups"
            (loadDocsMap (some (Json.obj (dictSet (loadDocsMap st.docsFile) "groups" _)))) = _
          rw [loadDocsMap_reload, objGet_dictSet_self, dictSet_of_none _ hnone]
          rfl
      · next v hv _ => split at h <;> cases h
      · next hv => cases h


/-- A state whose loaded `"groups"` value is an object was read without the
load itself raising: only absent files and object files produce one. -/
theorem loadRaises_of_groupsOf {st : GState} {gs : List (String × Json)}
    (h : groupsOf st = some gs) : loadRaises st.docsFile = false := by
  unfold groupsOf at h
  rcases hf : st.docsFile with _ | j
  · rfl
  · rw [hf] at h
    cases j with
    | obj kvs => rfl
    | null => nomatch h
    | bool b => nomatch h
    | num q => nomatch h
    | str s => nomatch h
    | arr elems => nomatch h

/-- What a raising `_get_or_create_doc` call did: either nothing (the raise
came before `documents().create`), or — when the loaded `"groups"` value is
not an object, so the state resolves no group — it created the document and
only then raised on the map assignment. -/
theorem gocd_err_cases {dest : GDest} {st : GState} {dt : PyDateTime} {md : Metadata}
    {st1 : GState} {evs : List GEvent}
    (h : getOrCreateDoc dest st dt md = .error (st1, evs)) :
    (st1 = st ∧ evs = []) ∨
    (groupsOf st = none ∧ st1.docsFile = st.docsFile ∧
      st1.store.docs = st.store.docs ++
        [⟨mkDocId st.store.nextDocId, docTitle dest.docStrategy (gkOf dest dt md), []⟩] ∧
      st1.store.nextDocId = st.store.nextDocId + 1 ∧
      st1.store.nextTabId = st.store.nextTabId ∧
      evs = [.docCreated (gkOf dest dt md) (mkDocId st.store.nextDocId)]) := by
  unfold getOrCreateDoc at h
  split at h
  · cases h
  · next hcfg =>
    by_cases hlr : loadRaises st.docsFile
    · rw [if_pos hlr] at h
      simp only [Except.error.injEq, Prod.mk.injEq] at h
      exact .inl ⟨h.1.symm, h.2.symm⟩
    · rw [if_neg hlr] at h
      dsimp only [] at h
      split at h
      · next groups hg =>
        split at h
        · cases h
        · simp only [Except.error.injEq, Prod.mk.injEq] at h
          exact .inl ⟨h.1.symm, h.2.symm⟩
        · cases h
      · next v hv heq =>
        have hgn : groupsOf st = none := by
          unfold groupsOf
          rw [heq]
          cases v with
          | obj kvs => exact (hv kvs rfl).elim
          | null => rfl
          | bool b => rfl
          | num q => rfl
          | str s => rfl
          | arr elems => rfl
        split at h
        · simp only [Except.error.injEq, Prod.mk.injEq] at h
          exact .inl ⟨h.1.symm, h.2.symm⟩
        · simp only [Except.error.injEq, Prod.mk.injEq] at h
          exact .inl ⟨h.1.symm, h.2.symm⟩
        · simp only [createDoc, Except.error.injEq, Prod.mk.injEq] at h
          obtain ⟨h1, h2⟩ := h
          subst h2
          exact .inr ⟨hgn, h1 ▸ rfl, h1 ▸ rfl, h1 ▸ rfl, h1 ▸ rfl, rfl⟩
      · simp only [Except.error.injEq, Prod.mk.injEq] at h
        exact .inl ⟨h.1.symm, h.2.symm⟩

theorem goct_cases {dest : GDest} {st : GState} {gkey docId : String} {dt : PyDateTime}
    {md : Metadata} {ot : Option String} {st2 : GState} {evs : List GEvent}
    (h : getOrCreateTab dest st gkey docId dt md = .ok (ot, st2, evs)) :
    (dest.tabStrategy.isNoTab = true ∧ ot = none ∧ st2 = st ∧ evs = []) ∨
    (dest.tabStrategy.isNoTab = false ∧
      ∃ doc, getDoc st.store docId = some doc ∧
        ((∃ tid, tabsLookup doc (getTabTitle dest.tabStrategy (getTabKey dest.tabStrategy dt md) dt)
            = some tid ∧ ot = some tid ∧ st2 = st ∧ evs = []) ∨
         (tabsLookup doc (getTabTitle dest.tabStrategy (getTabKey dest.tabStrategy dt md) dt)
            = none ∧
          ot = some (mkTabId st.store.nextTabId) ∧
          evs = [.tabCreated gkey (getTabKey dest.tabStrategy dt md) docId
            (getTabTitle dest.tabStrategy (getTabKey dest.tabStrategy dt md) dt)
            (mkTabId st.store.nextTabId)] ∧
          st2.docsFile = st.docsFile ∧
          st2.store.nextTabId = st.store.nextTabId + 1 ∧
          st2.store.nextDocId = st.store.nextDocId ∧
          st2.store.docs = replaceFirstDoc docId
            (fun d => { d with tabs := d.tabs ++ [⟨mkTabId st.store.nextTabId,
              getTabTitle dest.tabStrategy (getTabKey dest.tabStrategy dt md) dt⟩] })
            st.store.docs))) := by
  unfold getOrCreateTab at h
  split at h
  · next hnt =>
    simp only [Except.ok.injEq, Prod.mk.injEq] at h
    obtain ⟨h1, h2, h3⟩ := h
    exact .inl ⟨by simpa using hnt, h1.symm, h2.symm, h3.symm⟩
  · next hnt =>
    dsimp only [] at h
    split at h
    · cases h
    · next doc hdoc =>
      split at h
      · next tid htid =>
        simp only [Except.ok.injEq, Prod.mk.injEq] at h
        obtain ⟨h1, h2, h3⟩ := h
        subst h1 h2 h3
        exact .inr ⟨by simpa using hnt, doc, hdoc, .inl ⟨tid, htid, rfl, rfl, rfl⟩⟩
      · next htid =>
        simp only [createTab, Except.ok.injEq, Prod.mk.injEq] at h
        obtain ⟨h1, h2, h3⟩ := h
        subst h1 h2 h3
        exact .inr ⟨by simpa using hnt, doc, hdoc,
          .inr ⟨htid, rfl, rfl, rfl, rfl, rfl, rfl⟩⟩

theorem goct_err {dest : GDest} {st : GState} {gkey docId : String} {dt : PyDateTime}
    {md : Metadata} (h : getOrCreateTab dest st gkey docId dt md = .error ()) :
    dest.tabStrategy.isNoTab = false ∧ getDoc st.store docId = none := by
  unfold getOrCreateTab at h
  split at h
  · cases h
  · next hnt =>
    dsimp only [] at h
    split at h
    · next hdoc => exact ⟨by simpa using hnt, hdoc⟩
    · next doc hdoc =>
      split at h
      · cases h
      · cases h


theorem groupsOf_congr {st st' : GState} (h : st'.docsFile = st.docsFile) :
    groupsOf st' = groupsOf st := by
  unfold groupsOf
  rw [h]

theorem findDoc_append {docs : List GDoc} {d : String} {doc : GDoc}
    (newdocs : List GDoc) (h : docs.find? (fun x => x.id = d) = some doc) :
    (docs ++ newdocs).find? (fun x => x.id = d) = some doc := by
  induction docs with
  | nil => simp [List.find?] at h
  | cons a rest ih =>
    simp only [List.cons_append, List.find?] at *
    by_cases ha : a.id = d
    · simpa [ha] using h
    · rw [decide_eq_false ha] at h ⊢
      exact ih h

theorem findDoc_replaceFirst_other {docs : List GDoc} {d docId : String}
    (f : GDoc → GDoc) (hne : d ≠ docId) (hid : ∀ x, (f x).id = x.id) :
    (replaceFirstDoc docId f docs).find? (fun x => x.id = d) =
      docs.find? (fun x => x.id = d) := by
  induction docs with
  | nil => rfl
  | cons a rest ih =>
    unfold replaceFirstDoc
    by_cases ha : a.id = docId
    · rw [if_pos ha]
      simp only [List.find?]
      rw [decide_eq_false (by rw [hid]; rw [ha]; exact fun hh => hne hh.symm),
        decide_eq_false (by rw [ha]; exact fun hh => hne hh.symm)]
    · rw [if_neg ha]
      simp only [List.find?]
      by_cases hd : a.id = d
      · rw [decide_eq_true hd]
      · rw [decide_eq_false hd]
        exact ih

theorem findDoc_replaceFirst_self {docs : List GDoc} {docId : String}
    (f : GDoc → GDoc) (hid : ∀ x, (f x).id = x.id) :
    (replaceFirstDoc docId f docs).find? (fun x => x.id = docId) =
      (docs.find? (fun x => x.id = docId)).map f := by
  induction docs with
  | nil => rfl
  | cons a rest ih =>
    unfold replaceFirstDoc
    by_cases ha : a.id = docId
    · rw [if_pos ha]
      simp only [List.find?]
      rw [decide_eq_true (by rw [hid]; exact ha), decide_eq_true ha]
      rfl
    · rw [if_neg ha]
      simp only [List.find?]
      rw [decide_eq_false ha]
      exact ih

theorem tabsLookup_append_ne {doc : GDoc} {T T' : String} (tid : String) (h : T ≠ T') :
    tabsLookup ⟨doc.id, doc.title, doc.tabs ++ [⟨tid, T'⟩]⟩ T = tabsLookup doc T := by
  unfold tabsLookup
  by_cases hT : T = ""
  · rw [if_pos hT, if_pos hT]
  · rw [if_neg hT, if_neg hT]
    simp only [List.filter_append]
    have hne' : ¬((⟨tid, T'⟩ : GTab).id ≠ "" ∧ (⟨tid, T'⟩ : GTab).title = T) := by
      rintro ⟨-, hh⟩; exact h hh.symm
    have hf : (List.filter (fun t => decide (t.id ≠ "" ∧ t.title = T)) [(⟨tid, T'⟩ : GTab)]) = [] := by
      simp only [List.filter_cons, List.filter_nil, decide_eq_false hne']
      rfl
    rw [hf, List.append_nil]

theorem tabsLookup_append_self {doc : GDoc} {T tid : String} (hT : T ≠ "") (htid : tid ≠ "") :
    tabsLookup ⟨doc.id, doc.title, doc.tabs ++ [⟨tid, T⟩]⟩ T = some tid := by
  unfold tabsLookup
  rw [if_neg hT]
  simp only [List.filter_append]
  have hf : (List.filter (fun t => decide (t.id ≠ "" ∧ t.title = T)) [(⟨tid, T⟩ : GTab)]) =
      [(⟨tid, T⟩ : GTab)] := by
    simp [htid]
  rw [hf, List.getLast?_concat]
  rfl

theorem tabsLookup_ne_empty {doc : GDoc} {T tid : String}
    (h : tabsLookup doc T = some tid) : T ≠ "" := by
  intro hT
  rw [hT] at h
  simp [tabsLookup] at h

theorem countDoc_append (g : String) (a b : List GEvent) :
    countDocCreations g (a ++ b) = countDocCreations g a + countDocCreations g b := by
  simp [countDocCreations, List.filter_append]

theorem countTab_append (g k : String) (a b : List GEvent) :
    countTabCreations g k (a ++ b) = countTabCreations g k a + countTabCreations g k b := by
  simp [countTabCreations, List.filter_append]


theorem docAssigned_congr_file {st st' : GState} (h : st'.docsFile = st.docsFile)
    {g did : String} (ha : docAssigned st g did) : docAssigned st' g did := by
  obtain ⟨gs, hgs, hget⟩ := ha
  exact ⟨gs, (groupsOf_congr h).trans hgs, hget⟩

theorem docAssigned_mono_gocd {dest : GDest} {st : GState} {dt : PyDateTime} {md : Metadata}
    {did : String} {st1 : GState} {evs : List GEvent}
    (h : getOrCreateDoc dest st dt md = .ok (did, st1, evs)) :
    ∀ g did0, docAssigned st g did0 → docAssigned st1 g did0 := by
  rintro g did0 ⟨gs0, hgs0, hget⟩
  rcases gocd_cases h with ⟨rfl, -, -⟩ | ⟨-, -, -, -, -, -, gs, hgs, hnone, hgs1⟩
  · exact ⟨gs0, hgs0, hget⟩
  · have : gs0 = gs := Option.some.inj (hgs0.symm.trans hgs)
    subst this
    exact ⟨_, hgs1, objGet_append_left _ hget⟩

theorem groupBound_mono_gocd {dest : GDest} {st : GState} {dt : PyDateTime} {md : Metadata}
    {did : String} {st1 : GState} {evs : List GEvent}
    (h : getOrCreateDoc dest st dt md = .ok (did, st1, evs)) :
    ∀ g, groupBound st g → groupBound st1 g := by
  rintro g ⟨gs0, v, hgs0, hget⟩
  rcases gocd_cases h with ⟨rfl, -, -⟩ | ⟨-, -, -, -, -, -, gs, hgs, hnone, hgs1⟩
  · exact ⟨gs0, v, hgs0, hget⟩
  · have : gs0 = gs := Option.some.inj (hgs0.symm.trans hgs)
    subst this
    exact ⟨_, v, hgs1, objGet_append_left _ hget⟩

theorem titleAssigned_mono_gocd {dest : GDest} {st : GState} {dt : PyDateTime} {md : Metadata}
    {did : String} {st1 : GState} {evs : List GEvent}
    (h : getOrCreateDoc dest st dt md = .ok (did, st1, evs)) :
    ∀ d T tid, titleAssigned st d T tid → titleAssigned st1 d T tid := by
  rintro d T tid ⟨doc, hdoc, htl⟩
  rcases gocd_cases h with ⟨rfl, -, -⟩ | ⟨-, -, -, hdocs, -, -, -, -, -, -⟩
  · exact ⟨doc, hdoc, htl⟩
  · refine ⟨doc, ?_, htl⟩
    unfold getDoc at hdoc ⊢
    rw [hdocs]
    exact findDoc_append _ hdoc

theorem docAssigned_mono_goct {dest : GDest} {st : GState} {gkey docId : String}
    {dt : PyDateTime} {md : Metadata} {ot : Option String} {st2 : GState} {evs : List GEvent}
    (h : getOrCreateTab dest st gkey docId dt md = .ok (ot, st2, evs)) :
    (∀ g did0, docAssigned st g did0 → docAssigned st2 g did0) ∧
    (∀ g, groupBound st g → groupBound st2 g) := by
  have hfile : st2.docsFile = st.docsFile := by
    rcases goct_cases h with ⟨-, -, rfl, -⟩ | ⟨-, doc, hdoc, ⟨tid, -, -, rfl, -⟩ | ⟨-, -, -, hf, -⟩⟩
    · rfl
    · rfl
    · exact hf
  have hg := groupsOf_congr hfile
  constructor
  · rintro g did0 ⟨gs0, hgs0, hget⟩
    exact ⟨gs0, hg.trans hgs0, hget⟩
  · rintro g ⟨gs0, v, hgs0, hget⟩
    exact ⟨gs0, v, hg.trans hgs0, hget⟩

theorem titleAssigned_mono_goct {dest : GDest} {st : GState} {gkey docId : String}
    {dt : PyDateTime} {md : Metadata} {ot : Option String} {st2 : GState} {evs : List GEvent}
    (h : getOrCreateTab dest st gkey docId dt md = .ok (ot, st2, evs)) :
    ∀ d T tid, titleAssigned st d T tid → titleAssigned st2 d T tid := by
  rintro d T tid ⟨doc1, hdoc1, htl1⟩
  rcases goct_cases h with ⟨-, -, rfl, -⟩ | ⟨-, doc, hdoc, hcase⟩
  · exact ⟨doc1, hdoc1, htl1⟩
  · rcases hcase with ⟨tid', -, -, rfl, -⟩ | ⟨hnone, -, -, -, -, -, hdocs⟩
    · exact ⟨doc1, hdoc1, htl1⟩
    · by_cases hd : d = docId
      · subst hd
        have hdd : doc = doc1 := Option.some.inj (hdoc.symm.trans hdoc1)
        subst hdd
        have hTne : T ≠ getTabTitle dest.tabStrategy (getTabKey dest.tabStrategy dt md) dt := by
          intro hh
          rw [← hh] at hnone
          rw [hnone] at htl1
          cases htl1
        refine ⟨⟨doc.id, doc.title, doc.tabs ++ [⟨mkTabId st.store.nextTabId,
          getTabTitle dest.tabStrategy (getTabKey dest.tabStrategy dt md) dt⟩]⟩, ?_, ?_⟩
        · unfold getDoc at hdoc ⊢
          rw [hdocs, findDoc_replaceFirst_self
            (fun d0 => { id := d0.id, title := d0.title, tabs := d0.tabs ++
              [{ id := mkTabId st.store.nextTabId,
                 title := getTabTitle dest.tabStrategy (getTabKey dest.tabStrategy dt md) dt }] })
            (fun x => rfl), hdoc]
          rfl
        · rw [tabsLookup_append_ne _ hTne]
          exact htl1
      · refine ⟨doc1, ?_, htl1⟩
        unfold getDoc at hdoc1 ⊢
        rw [hdocs, findDoc_replaceFirst_other
          (fun d0 => { id := d0.id, title := d0.title, tabs := d0.tabs ++
            [{ id := mkTabId st.store.nextTabId,
               title := getTabTitle dest.tabStrategy (getTabKey dest.tabStrategy dt md) dt }] })
          hd (fun x => rfl)]
        exact hdoc1

theorem prep_mono (dest : GDest) (st : GState) (dt : PyDateTime) (md : Metadata) :
    (∀ g did, docAssigned st g did → docAssigned (prepareForMemo dest st dt md).st g did) ∧
    (∀ g, groupBound st g → groupBound (prepareForMemo dest st dt md).st g) ∧
    (∀ d T tid, titleAssigned st d T tid → titleAssigned (prepareForMemo dest st dt md).st d T tid) := by
  rcases hd : getOrCreateDoc dest st dt md with e | ⟨did, st1, evs1⟩
  · obtain ⟨st1, evs1⟩ := e
    have hps : (prepareForMemo dest st dt md).st = st1 := by simp [prepareForMemo, hd]
    rw [hps]
    rcases gocd_err_cases hd with ⟨rfl, -⟩ | ⟨-, hfile, hdocs, -, -, -⟩
    · exact ⟨fun _ _ hh => hh, fun _ hh => hh, fun _ _ _ hh => hh⟩
    · refine ⟨fun g did0 hh => docAssigned_congr_file hfile hh, fun g hh => ?_,
        fun d T tid hh => ?_⟩
      · obtain ⟨gs0, v, hgs0, hget⟩ := hh
        exact ⟨gs0, v, (groupsOf_congr hfile).trans hgs0, hget⟩
      · obtain ⟨doc, hdoc, htl⟩ := hh
        refine ⟨doc, ?_, htl⟩
        unfold getDoc at hdoc ⊢
        rw [hdocs]
        exact findDoc_append _ hdoc
  · rcases ht : getOrCreateTab dest st1 (docGroupKey dest.docStrategy dt md) did dt md with
      e2 | ⟨ot, st2, evs2⟩
    · simp only [prepareForMemo, hd, ht]
      exact ⟨docAssigned_mono_gocd hd, groupBound_mono_gocd hd, titleAssigned_mono_gocd hd⟩
    · simp only [prepareForMemo, hd, ht]
      exact ⟨fun g did0 hh => (docAssigned_mono_goct ht).1 g did0 (docAssigned_mono_gocd hd g did0 hh),
        fun g hh => (docAssigned_mono_goct ht).2 g (groupBound_mono_gocd hd g hh),
        fun d T tid hh => titleAssigned_mono_goct ht d T tid (titleAssigned_mono_gocd hd d T tid hh)⟩


theorem countDoc_nil (g : String) : countDocCreations g [] = 0 := rfl

theorem countDoc_single_doc (g g' did : String) :
    countDocCreations g [.docCreated g' did] = if g' = g then 1 else 0 := by
  by_cases h : g' = g <;> simp [countDocCreations, isDocEvtFor, List.filter, h]

theorem countDoc_single_tab (g a b c d e : String) :
    countDocCreations g [.tabCreated a b c d e] = 0 := rfl

theorem countTab_nil (g k : String) : countTabCreations g k [] = 0 := rfl

theorem countTab_single_doc (g k g' did : String) :
    countTabCreations g k [.docCreated g' did] = 0 := rfl

theorem countTab_single_tab (g k g' k' c d e : String) :
    countTabCreations g k [.tabCreated g' k' c d e] = if g' = g ∧ k' = k then 1 else 0 := by
  by_cases h : g' = g ∧ k' = k <;> simp [countTabCreations, isTabEvtFor, List.filter, h]

theorem groupBound_of_create_post {st1 : GState} {gs : List (String × Json)} {g did : String}
    (hgs1 : groupsOf st1 = some (gs ++ [(g, Json.str did)])) (hnone : objGet g gs = none) :
    groupBound st1 g :=
  ⟨_, Json.str did, hgs1, by rw [objGet_append_of_none _ hnone]; simp [objGet]⟩

theorem goct_no_doc_events {dest : GDest} {st : GState} {gkey docId : String}
    {dt : PyDateTime} {md : Metadata} {ot : Option String} {st2 : GState} {evs : List GEvent}
    (h : getOrCreateTab dest st gkey docId dt md = .ok (ot, st2, evs)) (g : String) :
    countDocCreations g evs = 0 := by
  rcases goct_cases h with ⟨-, -, -, rfl⟩ | ⟨-, doc, -, ⟨tid, -, -, -, rfl⟩ | ⟨-, -, rfl, -⟩⟩
  · rfl
  · rfl
  · rfl

theorem prep_doc_facts (dest : GDest) (st : GState) (dt : PyDateTime) (md : Metadata)
    (g : String) :
    countDocCreations g (prepareForMemo dest st dt md).events ≤ 1 ∧
    (groupBound st g → countDocCreations g (prepareForMemo dest st dt md).events = 0) ∧
    ((∃ gs, groupsOf st = some gs) →
      1 ≤ countDocCreations g (prepareForMemo dest st dt md).events →
      groupBound (prepareForMemo dest st dt md).st g) := by
  rcases hd : getOrCreateDoc dest st dt md with e | ⟨did, st1, evs1⟩
  · obtain ⟨st1, evs1⟩ := e
    have hpe : (prepareForMemo dest st dt md).events = evs1 := by simp [prepareForMemo, hd]
    rw [hpe]
    rcases gocd_err_cases hd with ⟨-, rfl⟩ | ⟨hgnone, -, -, -, -, rfl⟩
    · simp [countDoc_nil]
    · refine ⟨?_, ?_, ?_⟩
      · rw [countDoc_single_doc]
        split <;> omega
      · rintro ⟨gs0, v, hgs0, -⟩
        rw [hgnone] at hgs0
        cases hgs0
      · rintro ⟨gs0, hgs0⟩ -
        rw [hgnone] at hgs0
        cases hgs0
  · have hevs1 : countDocCreations g evs1 ≤ 1 ∧
        (groupBound st g → countDocCreations g evs1 = 0) ∧
        (1 ≤ countDocCreations g evs1 → groupBound st1 g) := by
      rcases gocd_cases hd with ⟨rfl, rfl, -⟩ | ⟨-, hevs, -, -, -, -, gs, hgs, hnone, hgs1⟩
      · simp [countDoc_nil]
      · subst hevs
        refine ⟨?_, ?_, ?_⟩
        · rw [countDoc_single_doc]
          split <;> omega
        · rintro ⟨gs0, v, hgs0, hget⟩
          have hq : gs0 = gs := Option.some.inj (hgs0.symm.trans hgs)
          subst hq
          have hne : ¬ (gkOf dest dt md = g) := by
            intro hh
            rw [hh] at hnone
            rw [hnone] at hget
            cases hget
          rw [countDoc_single_doc, if_neg hne]
        · intro h1
          have hg : gkOf dest dt md = g := by
            by_contra hne
            rw [countDoc_single_doc, if_neg hne] at h1
            omega
          subst hg
          exact groupBound_of_create_post hgs1 hnone
    rcases ht : getOrCreateTab dest st1 (docGroupKey dest.docStrategy dt md) did dt md with
      e2 | ⟨ot, st2, evs2⟩
    · simp only [prepareForMemo, hd, ht]
      exact ⟨hevs1.1, hevs1.2.1, fun _ => hevs1.2.2⟩
    · simp only [prepareForMemo, hd, ht]
      rw [countDoc_append, goct_no_doc_events ht g, Nat.add_zero]
      exact ⟨hevs1.1, hevs1.2.1,
        fun _ h1 => (docAssigned_mono_goct ht).2 g (hevs1.2.2 h1)⟩

theorem runP_cons (dest : GDest) (st : GState) (dt : PyDateTime) (md : Metadata)
    (rest : List (PyDateTime × Metadata)) :
    runP dest st ((dt, md) :: rest) =
      ((runP dest (prepareForMemo dest st dt md).st rest).1,
       (prepareForMemo dest st dt md).res ::
         (runP dest (prepareForMemo dest st dt md).st rest).2.1,
       (prepareForMemo dest st dt md).events ++
         (runP dest (prepareForMemo dest st dt md).st rest).2.2) := rfl

theorem run_doc_zero (dest : GDest) :
    ∀ (inps : List (PyDateTime × Metadata)) (st : GState) (g : String),
      groupBound st g → countDocCreations g (runP dest st inps).2.2 = 0 := by
  intro inps
  induction inps with
  | nil => intro st g _; rfl
  | cons i rest ih =>
    intro st g hb
    obtain ⟨dt, md⟩ := i
    rw [runP_cons]
    dsimp only
    rw [countDoc_append]
    rw [(prep_doc_facts dest st dt md g).2.1 hb,
      ih _ g ((prep_mono dest st dt md).2.1 g hb)]




/-! ## Resolution and replay lemmas -/

theorem mkTabId_ne_empty (n : Nat) : mkTabId n ≠ "" := by
  intro h
  have h2 : List.replicate (n + 1) 't' = ([] : List Char) := congrArg String.data h
  simp at h2

theorem resolvedDoc_mono_prep {dest : GDest} {st : GState} (dt : PyDateTime) (md : Metadata)
    {g did : String} (h : resolvedDoc dest st g did) :
    resolvedDoc dest (prepareForMemo dest st dt md).st g did :=
  ⟨h.1, fun hn => (prep_mono dest st dt md).1 g did (h.2 hn)⟩

/-- With the group key resolved to a known document, `_get_or_create_doc`
returns exactly that document and changes nothing. -/
theorem gocd_resolved {dest : GDest} {st : GState} {dt : PyDateTime} {md : Metadata}
    {did : String} (h : resolvedDoc dest st (gkOf dest dt md) did) :
    getOrCreateDoc dest st dt md = .ok (did, st, []) := by
  rcases hcfg : dest.docId with _ | d
  · obtain ⟨gs, hgs, hget⟩ := h.2 hcfg
    have hget' : objGet (docGroupKey dest.docStrategy dt md) gs = some (Json.str did) := hget
    unfold getOrCreateDoc
    rw [hcfg]
    dsimp only
    rw [loadRaises_of_groupsOf hgs, if_neg Bool.false_ne_true]
    rw [groupsOf_some_elim hgs]
    dsimp only
    rw [hget']
  · unfold getOrCreateDoc
    rw [hcfg]
    dsimp only
    rw [h.1 d hcfg]

/-- After `_get_or_create_doc` returns, the group key is resolved to the
returned document. -/
theorem gocd_resolved_post {dest : GDest} {st : GState} {dt : PyDateTime} {md : Metadata}
    {did : String} {st1 : GState} {evs : List GEvent}
    (h : getOrCreateDoc dest st dt md = .ok (did, st1, evs)) :
    resolvedDoc dest st1 (gkOf dest dt md) did := by
  rcases gocd_cases h with ⟨rfl, -, hc⟩ | ⟨hcfg, -, -, -, -, -, gs, hgs, hnone, hgs1⟩
  · rcases hc with hcfg | ⟨hcfg, ha⟩
    · refine ⟨fun d hd => Option.some.inj (hcfg.symm.trans hd), fun hn => ?_⟩
      rw [hn] at hcfg
      cases hcfg
    · refine ⟨fun d hd => ?_, fun _ => ha⟩
      rw [hd] at hcfg
      cases hcfg
  · refine ⟨fun d hd => ?_, fun _ => ?_⟩
    · rw [hd] at hcfg
      cases hcfg
    · exact ⟨_, hgs1, by rw [objGet_append_of_none _ hnone]; simp [objGet]⟩

/-- When the step's resolved document already carries the step's tab title,
the step creates no tab for any pair `(g, k)` with that title. -/
theorem prep_tab_blocked {dest : GDest} {st : GState} {dt : PyDateTime} {md : Metadata}
    {g k T did tid : String}
    (hres : resolvedDoc dest st g did) (hT : titleAssigned st did T tid)
    (hkey : gkOf dest dt md = g → tkOf dest dt md = k → ttOf dest dt md = T) :
    countTabCreations g k (prepareForMemo dest st dt md).events = 0 := by
  rcases hd : getOrCreateDoc dest st dt md with e | ⟨did0, st1, evs1⟩
  · obtain ⟨st1, evs1⟩ := e
    rw [show (prepareForMemo dest st dt md).events = evs1 by simp [prepareForMemo, hd]]
    rcases gocd_err_cases hd with ⟨-, rfl⟩ | ⟨-, -, -, -, -, rfl⟩
    · rfl
    · rfl
  · have hevs1 : countTabCreations g k evs1 = 0 := by
      rcases gocd_cases hd with ⟨-, rfl, -⟩ | ⟨-, rfl, -⟩
      · rfl
      · rfl
    rcases ht : getOrCreateTab dest st1 (docGroupKey dest.docStrategy dt md) did0 dt md with
      e2 | ⟨ot, st2, evs2⟩
    · simp only [prepareForMemo, hd, ht]
      exact hevs1
    · simp only [prepareForMemo, hd, ht]
      rw [countTab_append, hevs1, Nat.zero_add]
      rcases goct_cases ht with ⟨-, -, -, rfl⟩ | ⟨-, doc, hdoc, ⟨tid', -, -, -, rfl⟩ | ⟨hnone, -, hevs2, -⟩⟩
      · rfl
      · rfl
      · rw [hevs2, countTab_single_tab]
        rw [if_neg ?hng]
        case hng =>
          rintro ⟨hg, hk⟩
          -- the event's group key is the step's group key, tab key the step's
          have hgk : gkOf dest dt md = g := hg
          have htk : tkOf dest dt md = k := hk
          have hTT := hkey hgk htk
          -- with the group resolved, the doc stage returned `did` unchanged
          have hpin := gocd_resolved (hgk ▸ hres)
          rw [hpin] at hd
          simp only [Except.ok.injEq, Prod.mk.injEq] at hd
          obtain ⟨h1, h2, -⟩ := hd
          subst h1 h2
          -- the tab stage found the resolved doc, whose title dict has T
          obtain ⟨doc1, hdoc1, htl1⟩ := hT
          have hq : doc = doc1 := Option.some.inj (hdoc.symm.trans hdoc1)
          subst hq
          rw [show getTabTitle dest.tabStrategy (getTabKey dest.tabStrategy dt md) dt
              = T from hTT] at hnone
          rw [hnone] at htl1
          cases htl1


theorem prep_tab_count_le (dest : GDest) (st : GState) (dt : PyDateTime) (md : Metadata)
    (g k : String) :
    countTabCreations g k (prepareForMemo dest st dt md).events ≤ 1 := by
  rcases hd : getOrCreateDoc dest st dt md with e | ⟨did0, st1, evs1⟩
  · obtain ⟨st1, evs1⟩ := e
    rw [show (prepareForMemo dest st dt md).events = evs1 by simp [prepareForMemo, hd]]
    rcases gocd_err_cases hd with ⟨-, rfl⟩ | ⟨-, -, -, -, -, rfl⟩
    · exact Nat.zero_le 1
    · rw [countTab_single_doc]
      exact Nat.zero_le 1
  · have hevs1 : countTabCreations g k evs1 = 0 := by
      rcases gocd_cases hd with ⟨-, rfl, -⟩ | ⟨-, rfl, -⟩
      · rfl
      · rfl
    rcases ht : getOrCreateTab dest st1 (docGroupKey dest.docStrategy dt md) did0 dt md with
      e2 | ⟨ot, st2, evs2⟩
    · simp only [prepareForMemo, hd, ht]
      rw [hevs1]
      omega
    · simp only [prepareForMemo, hd, ht]
      rw [countTab_append, hevs1, Nat.zero_add]
      rcases goct_cases ht with ⟨-, -, -, rfl⟩ | ⟨-, doc, -, ⟨tid', -, -, -, rfl⟩ | ⟨-, -, hevs2, -⟩⟩
      · exact Nat.zero_le 1
      · exact Nat.zero_le 1
      · rw [hevs2, countTab_single_tab]
        split <;> omega

/-- A step that did create a tab for `(g, k)` leaves the pair resolved: the
group key is bound to a document whose title dict carries the step's title. -/
theorem prep_tab_create_post {dest : GDest} {st : GState} {dt : PyDateTime} {md : Metadata}
    {g k : String} (hTne : ttOf dest dt md ≠ "")
    (h1 : 1 ≤ countTabCreations g k (prepareForMemo dest st dt md).events) :
    g = gkOf dest dt md ∧ k = tkOf dest dt md ∧
    ∃ did tid, resolvedDoc dest (prepareForMemo dest st dt md).st g did ∧
      titleAssigned (prepareForMemo dest st dt md).st did (ttOf dest dt md) tid := by
  rcases hd : getOrCreateDoc dest st dt md with e | ⟨did0, st1, evs1⟩
  · obtain ⟨st1, evs1⟩ := e
    rw [show (prepareForMemo dest st dt md).events = evs1 by simp [prepareForMemo, hd]] at h1
    rcases gocd_err_cases hd with ⟨-, rfl⟩ | ⟨-, -, -, -, -, rfl⟩
    · cases h1
    · rw [countTab_single_doc] at h1
      cases h1
  · have hevs1 : countTabCreations g k evs1 = 0 := by
      rcases gocd_cases hd with ⟨-, rfl, -⟩ | ⟨-, rfl, -⟩
      · rfl
      · rfl
    have hres1 : resolvedDoc dest st1 (gkOf dest dt md) did0 := gocd_resolved_post hd
    rcases ht : getOrCreateTab dest st1 (docGroupKey dest.docStrategy dt md) did0 dt md with
      e2 | ⟨ot, st2, evs2⟩
    · rw [show (prepareForMemo dest st dt md).events = evs1 by
        simp [prepareForMemo, hd, ht]] at h1
      rw [hevs1] at h1
      cases h1
    · rw [show (prepareForMemo dest st dt md).events = evs1 ++ evs2 by
        simp [prepareForMemo, hd, ht]] at h1
      rw [countTab_append, hevs1, Nat.zero_add] at h1
      have hst : (prepareForMemo dest st dt md).st = st2 := by
        simp [prepareForMemo, hd, ht]
      rcases goct_cases ht with ⟨-, -, -, rfl⟩ | ⟨-, doc, hdoc, hcase⟩
      · cases h1
      · rcases hcase with ⟨tid', -, -, -, rfl⟩ | ⟨hnone, hot, hevs2, hfile, -, -, hdocs⟩
        · cases h1
        · rw [hevs2, countTab_single_tab] at h1
          by_cases hgk : docGroupKey dest.docStrategy dt md = g ∧ getTabKey dest.tabStrategy dt md = k
          on_goal 2 => rw [if_neg hgk] at h1; cases h1
          obtain ⟨hg, hk⟩ := hgk
          refine ⟨hg.symm, hk.symm, did0, mkTabId st1.store.nextTabId, ?_, ?_⟩
          · rw [hst, ← hg]
            exact ⟨fun d hd' => hres1.1 d hd',
              fun hn => docAssigned_congr_file hfile (hres1.2 hn)⟩
          · rw [hst]
            refine ⟨⟨doc.id, doc.title, doc.tabs ++ [⟨mkTabId st1.store.nextTabId,
              getTabTitle dest.tabStrategy (getTabKey dest.tabStrategy dt md) dt⟩]⟩, ?_, ?_⟩
            · unfold getDoc at hdoc ⊢
              rw [hdocs, findDoc_replaceFirst_self
                (fun d0 => { id := d0.id, title := d0.title, tabs := d0.tabs ++
                  [{ id := mkTabId st1.store.nextTabId,
                     title := getTabTitle dest.tabStrategy (getTabKey dest.tabStrategy dt md) dt }] })
                (fun x => rfl), hdoc]
              rfl
            · show tabsLookup _ (ttOf dest dt md) = _
              exact tabsLookup_append_self hTne (mkTabId_ne_empty _)

theorem run_tab_zero (dest : GDest) (g k T : String)
    (hkT : ∀ (dt' : PyDateTime) (md' : Metadata),
      gkOf dest dt' md' = g → tkOf dest dt' md' = k → ttOf dest dt' md' = T) :
    ∀ (inps : List (PyDateTime × Metadata)) (st : GState) (did tid : String),
      resolvedDoc dest st g did → titleAssigned st did T tid →
      countTabCreations g k (runP dest st inps).2.2 = 0 := by
  intro inps
  induction inps with
  | nil => intro st did tid _ _; rfl
  | cons i rest ih =>
    intro st did tid hres hT
    obtain ⟨dt, md⟩ := i
    rw [runP_cons]
    dsimp only
    rw [countTab_append, prep_tab_blocked hres hT (hkT dt md), ih _ did tid
      (resolvedDoc_mono_prep dt md hres) ((prep_mono dest st dt md).2.2 did T tid hT)]

theorem run_tab_le_one (dest : GDest)
    (H2 : ∀ (dt : PyDateTime) (md : Metadata) (dt' : PyDateTime) (md' : Metadata),
      tkOf dest dt md = tkOf dest dt' md' → ttOf dest dt md = ttOf dest dt' md')
    (H3 : ∀ (dt : PyDateTime) (md : Metadata), ttOf dest dt md ≠ "") :
    ∀ (inps : List (PyDateTime × Metadata)) (st : GState) (g k : String),
      countTabCreations g k (runP dest st inps).2.2 ≤ 1 := by
  intro inps
  induction inps with
  | nil => intro st g k; simp [runP, countTab_nil]
  | cons i rest ih =>
    intro st g k
    obtain ⟨dt, md⟩ := i
    rw [runP_cons]
    dsimp only
    rw [countTab_append]
    by_cases h1 : 1 ≤ countTabCreations g k (prepareForMemo dest st dt md).events
    · obtain ⟨hg, hk, did, tid, hres, hT⟩ := prep_tab_create_post (H3 dt md) h1
      have hkT : ∀ (dt' : PyDateTime) (md' : Metadata),
          gkOf dest dt' md' = g → tkOf dest dt' md' = k → ttOf dest dt' md' = ttOf dest dt md := by
        intro dt' md' hg' hk'
        exact H2 dt' md' dt md (by rw [hk', hk])
      have h0 := run_tab_zero dest g k (ttOf dest dt md) hkT rest
        (prepareForMemo dest st dt md).st did tid hres hT
      have hle := prep_tab_count_le dest st dt md g k
      omega
    · have := ih (prepareForMemo dest st dt md).st g k
      omega



/-! ## C1 — at-most-once creation -/

theorem timeOfDayTitleLoop_ne_empty (key : String) (R : List (String × Nat × Nat)) :
    timeOfDayTitleLoop key R ≠ "" := by
  induction R with
  | nil =>
    show "Unknown Time" ≠ ""
    decide
  | cons a rest ih =>
    unfold timeOfDayTitleLoop
    obtain ⟨name, lo, hi⟩ := a
    split
    · intro h
      have h2 := congrArg String.data h
      simp [strData_append] at h2
    · exact ih

/-- C1 counterexample -/
theorem c1_counterexample :
    getTabKey cxDest.tabStrategy (mkDT 2025 1 30 9 0 0) {} =
      getTabKey cxDest.tabStrategy (mkDT 2025 1 30 15 0 0) {} ∧
    docGroupKey cxDest.docStrategy (mkDT 2025 1 30 9 0 0) {} =
      docGroupKey cxDest.docStrategy (mkDT 2025 1 30 15 0 0) {} ∧
    countTabCreations "single" "2025-01-30" (runP cxDest emptyGState cxInputs).2.2 = 2 :=
  ⟨rfl, rfl, rfl⟩


end VMT
namespace VMT

theorem objGet_mem {kvs : List (String × Json)} {k : String} {v : Json}
    (h : objGet k kvs = some v) : (k, v) ∈ kvs := by
  induction kvs with
  | nil => cases h
  | cons a rest ih =>
    simp only [objGet] at h
    by_cases ha : a.1 = k
    · rw [if_pos ha] at h
      have hv : a.2 = v := Option.some.inj h
      have : a = (k, v) := by
        obtain ⟨a1, a2⟩ := a
        simp only at ha hv
        rw [ha, hv]
      rw [← this]
      exact List.mem_cons_self a rest
    · rw [if_neg ha] at h
      exact List.mem_cons_of_mem a (ih h)

theorem findDoc_isSome {docs : List GDoc} {did : String}
    (h : ∃ doc ∈ docs, doc.id = did) :
    ∃ doc', docs.find? (fun x => x.id = did) = some doc' := by
  induction docs with
  | nil => obtain ⟨doc, hm, -⟩ := h; cases hm
  | cons a rest ih =>
    simp only [List.find?]
    by_cases ha : a.id = did
    · rw [decide_eq_true ha]
      exact ⟨a, rfl⟩
    · rw [decide_eq_false ha]
      obtain ⟨doc, hm, hd⟩ := h
      rcases List.mem_cons.mp hm with rfl | hm'
      · exact absurd hd ha
      · exact ih ⟨doc, hm', hd⟩

theorem replaceFirst_id_mem {docs : List GDoc} {dId : String} (f : GDoc → GDoc)
    (hid : ∀ x, (f x).id = x.id) {s : String}
    (h : ∃ doc ∈ docs, doc.id = s) :
    ∃ doc ∈ replaceFirstDoc dId f docs, doc.id = s := by
  induction docs with
  | nil => obtain ⟨doc, hm, -⟩ := h; cases hm
  | cons a rest ih =>
    unfold replaceFirstDoc
    obtain ⟨doc, hm, hds⟩ := h
    by_cases ha : a.id = dId
    · rw [if_pos ha]
      rcases List.mem_cons.mp hm with rfl | hm'
      · exact ⟨f doc, List.mem_cons_self _ _, (hid doc).trans hds⟩
      · exact ⟨doc, List.mem_cons_of_mem _ hm', hds⟩
    · rw [if_neg ha]
      rcases List.mem_cons.mp hm with rfl | hm'
      · exact ⟨doc, List.mem_cons_self _ _, hds⟩
      · obtain ⟨doc', hm'', hds'⟩ := ih ⟨doc, hm', hds⟩
        exact ⟨doc', List.mem_cons_of_mem _ hm'', hds'⟩

/-- Document ids survive one `prepare_for_memo` call. -/
theorem prep_docs_ids (dest : GDest) (st : GState) (dt : PyDateTime) (md : Metadata)
    {s : String} (h : ∃ doc ∈ st.store.docs, doc.id = s) :
    ∃ doc ∈ (prepareForMemo dest st dt md).st.store.docs, doc.id = s := by
  rcases hd : getOrCreateDoc dest st dt md with e | ⟨did, st1, evs1⟩
  · obtain ⟨st1, evs1⟩ := e
    rw [show (prepareForMemo dest st dt md).st = st1 by simp [prepareForMemo, hd]]
    rcases gocd_err_cases hd with ⟨rfl, -⟩ | ⟨-, -, hdocs, -, -, -⟩
    · exact h
    · obtain ⟨doc, hm, hds⟩ := h
      exact ⟨doc, hdocs ▸ List.mem_append_left _ hm, hds⟩
  · have h1 : ∃ doc ∈ st1.store.docs, doc.id = s := by
      rcases gocd_cases hd with ⟨rfl, -, -⟩ | ⟨-, -, -, hdocs, -⟩
      · exact h
      · obtain ⟨doc, hm, hds⟩ := h
        exact ⟨doc, hdocs ▸ List.mem_append_left _ hm, hds⟩
    rcases ht : getOrCreateTab dest st1 (docGroupKey dest.docStrategy dt md) did dt md with
      e2 | ⟨ot, st2, evs2⟩
    · simpa only [prepareForMemo, hd, ht] using h1
    · have h2 : ∃ doc ∈ st2.store.docs, doc.id = s := by
        rcases goct_cases ht with ⟨-, -, rfl, -⟩ | ⟨-, doc0, -, ⟨tid, -, -, rfl, -⟩ | ⟨-, -, -, -, -, -, hdocs2⟩⟩
        · exact h1
        · exact h1
        · rw [hdocs2]
          exact replaceFirst_id_mem
            (fun d0 => { id := d0.id, title := d0.title, tabs := d0.tabs ++
              [{ id := mkTabId st1.store.nextTabId,
                 title := getTabTitle dest.tabStrategy (getTabKey dest.tabStrategy dt md) dt }] })
            (fun x => rfl) h1
      simpa only [prepareForMemo, hd, ht] using h2

/-- `StateOk` is preserved by one `prepare_for_memo` call. -/
theorem StateOk_preserved {dest : GDest} {st : GState} (hok : StateOk dest st)
    (dt : PyDateTime) (md : Metadata) :
    StateOk dest (prepareForMemo dest st dt md).st := by
  obtain ⟨⟨gs, hgs, hvals⟩, hcfg⟩ := hok
  refine ⟨?_, ?_⟩
  · rcases hd : getOrCreateDoc dest st dt md with e | ⟨did, st1, evs1⟩
    · obtain ⟨st1, evs1⟩ := e
      have hps : (prepareForMemo dest st dt md).st = st1 := by simp [prepareForMemo, hd]
      have hfile : st1.docsFile = st.docsFile := by
        rcases gocd_err_cases hd with ⟨rfl, -⟩ | ⟨-, hf, -⟩
        · rfl
        · exact hf
      refine ⟨gs, ?_, ?_⟩
      · rw [hps, groupsOf_congr hfile]
        exact hgs
      · intro p hp
        obtain ⟨s, hstr, hex⟩ := hvals p hp
        exact ⟨s, hstr, prep_docs_ids dest st dt md hex⟩
    · have hstep : ∀ q, (∃ doc ∈ st.store.docs, doc.id = q) →
          ∃ doc ∈ (prepareForMemo dest st dt md).st.store.docs, doc.id = q :=
        fun q hq => prep_docs_ids dest st dt md hq
      have hstep1 : ∀ q, (∃ doc ∈ st1.store.docs, doc.id = q) →
          ∃ doc ∈ (prepareForMemo dest st dt md).st.store.docs, doc.id = q := by
        intro q hq
        rcases ht : getOrCreateTab dest st1 (docGroupKey dest.docStrategy dt md) did dt md with
          e2 | ⟨ot, st2, evs2⟩
        · simpa only [prepareForMemo, hd, ht] using hq
        · have h2 : ∃ doc ∈ st2.store.docs, doc.id = q := by
            rcases goct_cases ht with ⟨-, -, rfl, -⟩ |
              ⟨-, doc0, -, ⟨tid, -, -, rfl, -⟩ | ⟨-, -, -, -, -, -, hdocs2⟩⟩
            · exact hq
            · exact hq
            · rw [hdocs2]
              exact replaceFirst_id_mem
                (fun d0 => { id := d0.id, title := d0.title, tabs := d0.tabs ++
                  [{ id := mkTabId st1.store.nextTabId,
                     title := getTabTitle dest.tabStrategy (getTabKey dest.tabStrategy dt md) dt }] })
                (fun x => rfl) hq
          simpa only [prepareForMemo, hd, ht] using h2
      have hfile : groupsOf (prepareForMemo dest st dt md).st = groupsOf st1 := by
        rcases ht : getOrCreateTab dest st1 (docGroupKey dest.docStrategy dt md) did dt md with
          e2 | ⟨ot, st2, evs2⟩
        · simp only [prepareForMemo, hd, ht]
        · have : st2.docsFile = st1.docsFile := by
            rcases goct_cases ht with ⟨-, -, rfl, -⟩ | ⟨-, doc0, -, ⟨tid, -, -, rfl, -⟩ | ⟨-, -, -, hf, -⟩⟩
            · rfl
            · rfl
            · exact hf
          simp only [prepareForMemo, hd, ht]
          exact groupsOf_congr this
      rcases gocd_cases hd with ⟨rfl, -, -⟩ | ⟨-, -, hdid, hdocs, -, -, gs0, hgs0, hnone0, hgs1⟩
      · refine ⟨gs, hfile.trans hgs, ?_⟩
        intro p hp
        obtain ⟨s, hstr, hex⟩ := hvals p hp
        exact ⟨s, hstr, hstep s hex⟩
      · have hq : gs0 = gs := Option.some.inj (hgs0.symm.trans hgs)
        subst hq
        refine ⟨gs0 ++ [(gkOf dest dt md, Json.str did)], hfile.trans hgs1, ?_⟩
        intro p hp
        rcases List.mem_append.mp hp with hp' | hp'
        · obtain ⟨s, hstr, hex⟩ := hvals p hp'
          exact ⟨s, hstr, hstep s hex⟩
        · have hpe : p = (gkOf dest dt md, Json.str did) := List.mem_singleton.mp hp'
          subst hpe
          refine ⟨did, rfl, ?_⟩
          apply hstep1 did
          rw [hdocs]
          exact ⟨⟨did, docTitle dest.docStrategy (gkOf dest dt md), []⟩,
            List.mem_append_right _ (List.mem_singleton.mpr rfl), rfl⟩
  · intro d hd'
    exact prep_docs_ids dest st dt md (hcfg d hd')

end VMT
namespace VMT

/-- The tab stage succeeds whenever the document it is given exists. -/
theorem goct_ok_of_exists {dest : GDest} {st1 : GState} {gkey did : String}
    (dt : PyDateTime) (md : Metadata) (hex : ∃ doc ∈ st1.store.docs, doc.id = did) :
    ∃ ot st2 evs2, getOrCreateTab dest st1 gkey did dt md = .ok (ot, st2, evs2) := by
  unfold getOrCreateTab
  by_cases hnt : dest.tabStrategy.isNoTab
  · rw [if_pos hnt]
    exact ⟨none, st1, [], rfl⟩
  · rw [if_neg hnt]
    dsimp only
    obtain ⟨doc', hfind⟩ := findDoc_isSome hex
    have hgd : getDoc st1.store did = some doc' := hfind
    rw [hgd]
    dsimp only
    rcases htl : tabsLookup doc'
        (getTabTitle dest.tabStrategy (getTabKey dest.tabStrategy dt md) dt) with _ | tid
    · dsimp only
      exact ⟨_, _, _, rfl⟩
    · dsimp only
      exact ⟨_, _, _, rfl⟩

/-- Under a healthy state, `prepare_for_memo` succeeds. -/
theorem prep_ok {dest : GDest} {st : GState} (hok : StateOk dest st)
    (dt : PyDateTime) (md : Metadata) :
    ∃ did ot, (prepareForMemo dest st dt md).res = .ok (did, ot) := by
  obtain ⟨⟨gs, hgs, hvals⟩, hcfg⟩ := hok
  have hdoc : ∃ did st1 evs1, getOrCreateDoc dest st dt md = .ok (did, st1, evs1) := by
    rcases hc : dest.docId with _ | d
    · unfold getOrCreateDoc
      rw [hc]
      dsimp only
      rw [loadRaises_of_groupsOf hgs, if_neg Bool.false_ne_true]
      rw [groupsOf_some_elim hgs]
      dsimp only
      rcases hget : objGet (docGroupKey dest.docStrategy dt md) gs with _ | v
      · exact ⟨_, _, _, rfl⟩
      · obtain ⟨s, hstr, -⟩ := hvals _ (objGet_mem hget)
        subst hstr
        exact ⟨_, _, _, rfl⟩
    · unfold getOrCreateDoc
      rw [hc]
      exact ⟨_, _, _, rfl⟩
  obtain ⟨did, st1, evs1, hd⟩ := hdoc
  have hex : ∃ doc ∈ st1.store.docs, doc.id = did := by
    rcases gocd_cases hd with ⟨rfl, -, hcc⟩ | ⟨-, -, hdid, hdocs, -⟩
    · rcases hcc with hsome | ⟨hnone, gs0, hgs0, hget0⟩
      · exact hcfg did hsome
      · have hq : gs0 = gs := Option.some.inj (hgs0.symm.trans hgs)
        subst hq
        obtain ⟨s, hstr, hex⟩ := hvals _ (objGet_mem hget0)
        have : s = did := by
          cases hstr
          rfl
        rw [← this]
        exact hex
    · rw [hdocs]
      exact ⟨⟨did, docTitle dest.docStrategy (gkOf dest dt md), []⟩,
        List.mem_append_right _ (List.mem_singleton.mpr rfl), rfl⟩
  obtain ⟨ot, st2, evs2, ht⟩ :=
    @goct_ok_of_exists dest st1 (docGroupKey dest.docStrategy dt md) did dt md hex
  exact ⟨did, ot, by simp [prepareForMemo, hd, ht]⟩

/-- On a run from a healthy state, at most one document is ever created per
group key: the first creation binds the key in the persisted map, and the
bound key blocks every later creation. -/
theorem run_doc_le_one (dest : GDest) :
    ∀ (inps : List (PyDateTime × Metadata)) (st : GState), StateOk dest st →
      ∀ g : String, countDocCreations g (runP dest st inps).2.2 ≤ 1 := by
  intro inps
  induction inps with
  | nil =>
    intro st hok g
    simp [runP, countDoc_nil]
  | cons i rest ih =>
    intro st hok g
    obtain ⟨dt, md⟩ := i
    rw [runP_cons]
    dsimp only
    rw [countDoc_append]
    by_cases h1 : 1 ≤ countDocCreations g (prepareForMemo dest st dt md).events
    · obtain ⟨⟨gs, hgs, -⟩, -⟩ := hok
      have h0 := run_doc_zero dest rest (prepareForMemo dest st dt md).st g
        ((prep_doc_facts dest st dt md g).2.2 ⟨gs, hgs⟩ h1)
      have hle := (prep_doc_facts dest st dt md g).1
      omega
    · have := ih (prepareForMemo dest st dt md).st (StateOk_preserved hok dt md) g
      omega

/-- C1 (amended): on runs sharing a healthy persisted map, at most one
document is created per group key; and at most one tab per (group key,
tab key) pair whenever tab titles are a function of the tab key and
nonempty. -/
theorem c1_at_most_once_creation :
    (∀ (dest : GDest) (st : GState), StateOk dest st →
      ∀ (inps : List (PyDateTime × Metadata)) (g : String),
        countDocCreations g (runP dest st inps).2.2 ≤ 1) ∧
    (∀ dest : GDest,
      (∀ (dt : PyDateTime) (md : Metadata) (dt' : PyDateTime) (md' : Metadata),
        tkOf dest dt md = tkOf dest dt' md' → ttOf dest dt md = ttOf dest dt' md') →
      (∀ (dt : PyDateTime) (md : Metadata), ttOf dest dt md ≠ "") →
      ∀ (inps : List (PyDateTime × Metadata)) (st : GState) (g k : String),
        countTabCreations g k (runP dest st inps).2.2 ≤ 1) :=
  ⟨fun dest st hok inps g => run_doc_le_one dest inps st hok g,
   fun dest H2 H3 inps st g k => run_tab_le_one dest H2 H3 inps st g k⟩

/-- Witness for C1 at a default-style configuration starting from the fresh
state. -/
theorem c1_at_most_once_creation_witness :
    StateOk wDest emptyGState ∧
    countDocCreations "single" (runP wDest emptyGState cxInputs).2.2 ≤ 1 ∧
    countTabCreations "single" "morning" (runP wDest emptyGState cxInputs).2.2 ≤ 1 := by
  have hok : StateOk wDest emptyGState :=
    ⟨⟨[], rfl, fun p hp => absurd hp (List.not_mem_nil p)⟩, fun d hd => nomatch hd⟩
  refine ⟨hok, c1_at_most_once_creation.1 wDest emptyGState hok cxInputs "single", ?_⟩
  refine c1_at_most_once_creation.2 wDest ?_ ?_ cxInputs emptyGState "single" "morning"
  · intro dt md dt' md' h
    show timeOfDayTitleLoop (tkOf wDest dt md) _ = timeOfDayTitleLoop (tkOf wDest dt' md') _
    rw [h]
  · intro dt md
    exact timeOfDayTitleLoop_ne_empty _ _

end VMT
namespace VMT

/-- A successful `prepare_for_memo` leaves its input's pair resolved. -/
theorem prep_establish {dest : GDest} {st : GState} {dt : PyDateTime} {md : Metadata}
    {did : String} {ot : Option String} (hTne : ttOf dest dt md ≠ "")
    (h : (prepareForMemo dest st dt md).res = .ok (did, ot)) :
    pairResolved dest (prepareForMemo dest st dt md).st (gkOf dest dt md) did ot
      (ttOf dest dt md) := by
  rcases hd : getOrCreateDoc dest st dt md with e | ⟨did0, st1, evs1⟩
  · rw [show (prepareForMemo dest st dt md).res = .error () by simp [prepareForMemo, hd]] at h
    cases h
  · rcases ht : getOrCreateTab dest st1 (docGroupKey dest.docStrategy dt md) did0 dt md with
      e2 | ⟨ot0, st2, evs2⟩
    · rw [show (prepareForMemo dest st dt md).res = .error () by simp [prepareForMemo, hd, ht]] at h
      cases h
    · rw [show (prepareForMemo dest st dt md).res = .ok (did0, ot0) by
        simp [prepareForMemo, hd, ht]] at h
      have hst : (prepareForMemo dest st dt md).st = st2 := by simp [prepareForMemo, hd, ht]
      simp only [Except.ok.injEq, Prod.mk.injEq] at h
      obtain ⟨h1, h2⟩ := h
      rw [← h1, ← h2]
      have hres1 : resolvedDoc dest st1 (gkOf dest dt md) did0 := gocd_resolved_post hd
      have hfile : st2.docsFile = st1.docsFile := by
        rcases goct_cases ht with ⟨-, -, rfl, -⟩ | ⟨-, doc0, -, ⟨tid, -, -, rfl, -⟩ | ⟨-, -, -, hf, -⟩⟩
        · rfl
        · rfl
        · exact hf
      rw [hst]
      refine ⟨⟨hres1.1, fun hn => docAssigned_congr_file hfile (hres1.2 hn)⟩, ?_⟩
      rcases goct_cases ht with ⟨hnt, hot, rfl, -⟩ |
        ⟨hnt, doc0, hdoc0, ⟨tid, htl, hot, rfl, -⟩ | ⟨hnone, hot, -, -, -, -, hdocs2⟩⟩
      · exact .inl ⟨hnt, hot⟩
      · exact .inr ⟨hnt, tid, hot, doc0, hdoc0, htl⟩
      · refine .inr ⟨hnt, mkTabId st1.store.nextTabId, hot, ?_⟩
        refine ⟨⟨doc0.id, doc0.title, doc0.tabs ++ [⟨mkTabId st1.store.nextTabId,
          getTabTitle dest.tabStrategy (getTabKey dest.tabStrategy dt md) dt⟩]⟩, ?_, ?_⟩
        · unfold getDoc at hdoc0 ⊢
          rw [hdocs2, findDoc_replaceFirst_self
            (fun d0 => { id := d0.id, title := d0.title, tabs := d0.tabs ++
              [{ id := mkTabId st1.store.nextTabId,
                 title := getTabTitle dest.tabStrategy (getTabKey dest.tabStrategy dt md) dt }] })
            (fun x => rfl), hdoc0]
          rfl
        · show tabsLookup _ (ttOf dest dt md) = _
          exact tabsLookup_append_self hTne (mkTabId_ne_empty _)

/-- `pairResolved` survives later `prepare_for_memo` calls. -/
theorem pairResolved_mono_prep {dest : GDest} {st : GState} {g did : String}
    {ot : Option String} {T : String} (dt : PyDateTime) (md : Metadata)
    (h : pairResolved dest st g did ot T) :
    pairResolved dest (prepareForMemo dest st dt md).st g did ot T := by
  obtain ⟨hres, htab⟩ := h
  refine ⟨resolvedDoc_mono_prep dt md hres, ?_⟩
  rcases htab with ⟨hnt, hot⟩ | ⟨hnt, tid, hot, hT⟩
  · exact .inl ⟨hnt, hot⟩
  · exact .inr ⟨hnt, tid, hot, (prep_mono dest st dt md).2.2 did T tid hT⟩

/-- Replaying an input with the same derived keys returns the resolved pair. -/
theorem prep_replay {dest : GDest} {st : GState} {g did : String} {ot : Option String}
    {T : String} (dt' : PyDateTime) (md' : Metadata)
    (hp : pairResolved dest st g did ot T)
    (hg : dest.docId = none → gkOf dest dt' md' = g)
    (hT : dest.tabStrategy.isNoTab = false → ttOf dest dt' md' = T) :
    (prepareForMemo dest st dt' md').res = .ok (did, ot) := by
  have hres : resolvedDoc dest st (gkOf dest dt' md') did := by
    rcases hc : dest.docId with _ | d
    · rw [hg hc]
      exact hp.1
    · refine ⟨hp.1.1, fun hn => ?_⟩
      rw [hn] at hc
      cases hc
  have hd := gocd_resolved hres
  rcases hp.2 with ⟨hnt, hot⟩ | ⟨hnt, tid, hot, doc0, hdoc0, htl0⟩
  · have ht : getOrCreateTab dest st (docGroupKey dest.docStrategy dt' md') did dt' md' =
        .ok (none, st, []) := by
      unfold getOrCreateTab
      rw [if_pos hnt]
    rw [hot]
    simp [prepareForMemo, hd, ht]
  · have htl' : tabsLookup doc0
        (getTabTitle dest.tabStrategy (getTabKey dest.tabStrategy dt' md') dt') = some tid := by
      rw [show getTabTitle dest.tabStrategy (getTabKey dest.tabStrategy dt' md') dt' = T from
        hT hnt]
      exact htl0
    have ht : getOrCreateTab dest st (docGroupKey dest.docStrategy dt' md') did dt' md' =
        .ok (some tid, st, []) := by
      unfold getOrCreateTab
      rw [if_neg (by rw [hnt]; exact fun hh => Bool.false_ne_true hh)]
      dsimp only
      rw [hdoc0]
      dsimp only
      rw [htl']
    rw [hot]
    simp [prepareForMemo, hd, ht]

/-- The resolved pair is returned for every later input with the same keys. -/
theorem run_replay {dest : GDest} {g did : String} {ot : Option String} {T : String} :
    ∀ (rest : List (PyDateTime × Metadata)) (st : GState),
      pairResolved dest st g did ot T →
      ∀ (m : Nat) (ib : PyDateTime × Metadata), rest[m]? = some ib →
        (dest.docId = none → gkOf dest ib.1 ib.2 = g) →
        (dest.tabStrategy.isNoTab = false → ttOf dest ib.1 ib.2 = T) →
        (runP dest st rest).2.1[m]? = some (.ok (did, ot)) := by
  intro rest
  induction rest with
  | nil =>
    intro st hp m ib hm
    simp at hm
  | cons j tail ih =>
    intro st hp m ib hm hg hT
    obtain ⟨dt, md⟩ := j
    rw [runP_cons]
    dsimp only
    rcases m with _ | m
    · rw [List.getElem?_cons_zero] at hm ⊢
      have him : (dt, md) = ib := Option.some.inj hm
      rw [← him] at hg hT
      rw [prep_replay dt md hp hg hT]
    · rw [List.getElem?_cons_succ] at hm ⊢
      exact ih _ (pairResolved_mono_prep dt md hp) m ib hm hg hT

end VMT
namespace VMT

theorem sep_inj {sep : Char} :
    ∀ {a c b d : List Char}, sep ∉ a → sep ∉ c →
      a ++ sep :: b = c ++ sep :: d → a = c ∧ b = d := by
  intro a
  induction a with
  | nil =>
    intro c b d _ hc h
    cases c with
    | nil =>
      simp only [List.nil_append] at h
      exact ⟨rfl, (List.cons.injEq _ _ _ _ ▸ h).2⟩
    | cons x cs =>
      simp only [List.nil_append, List.cons_append, List.cons.injEq] at h
      rcases h with ⟨h1, -⟩
      subst h1
      exact absurd (List.mem_cons_self _ _) hc
  | cons x as ih =>
    intro c b d ha hc h
    cases c with
    | nil =>
      simp only [List.cons_append, List.nil_append, List.cons.injEq] at h
      rcases h with ⟨h1, -⟩
      subst h1
      exact absurd (List.mem_cons_self _ _) ha
    | cons y cs =>
      simp only [List.cons_append, List.cons.injEq] at h
      obtain ⟨hxy, hrest⟩ := h
      have := ih (fun hm => ha (List.mem_cons_of_mem _ hm))
        (fun hm => hc (List.mem_cons_of_mem _ hm)) hrest
      exact ⟨by rw [hxy, this.1], this.2⟩

end VMT
namespace VMT

theorem strColon_data : (":" : String).data = [':'] := rfl

theorem cacheKey_split {dest : GDest}
    (H1 : ∀ (dt : PyDateTime) (md : Metadata), ':' ∉ (docGroupKey dest.docStrategy dt md).data)
    {dt : PyDateTime} {md : Metadata} {dt' : PyDateTime} {md' : Metadata}
    (h : getCacheKey dest dt md = getCacheKey dest dt' md') :
    (dest.docId = none → gkOf dest dt md = gkOf dest dt' md') ∧
    (dest.tabStrategy.isNoTab = false → tkOf dest dt md = tkOf dest dt' md') := by
  have hnc : ∀ (dtx : PyDateTime) (mdx : Metadata),
      ':' ∉ (if dest.docId.isSome then "single_doc"
        else docGroupKey dest.docStrategy dtx mdx).data := by
    intro dtx mdx
    by_cases hc : dest.docId.isSome
    · rw [if_pos hc]
      decide
    · rw [if_neg hc]
      exact H1 dtx mdx
  have hdk : (if dest.docId.isSome then "single_doc" else docGroupKey dest.docStrategy dt md) =
        (if dest.docId.isSome then "single_doc" else docGroupKey dest.docStrategy dt' md') →
      dest.docId = none → gkOf dest dt md = gkOf dest dt' md' := by
    intro hdeq hn
    rw [hn] at hdeq
    simpa using hdeq
  unfold getCacheKey at h
  dsimp only at h
  by_cases hnt : dest.tabStrategy.isNoTab
  · rw [if_pos hnt, if_pos hnt] at h
    simp only [ne_eq, not_true_eq_false, if_false, ite_false] at h
    refine ⟨hdk (by simpa using h), fun h' => ?_⟩
    rw [hnt] at h'
    cases h'
  · rw [if_neg hnt, if_neg hnt] at h
    have hne : ¬(("" : String) ≠ "") := fun hcon => hcon rfl
    by_cases he1 : getTabKey dest.tabStrategy dt md = ""
    · by_cases he2 : getTabKey dest.tabStrategy dt' md' = ""
      · rw [he1, he2, if_neg hne, if_neg hne] at h
        exact ⟨hdk h, fun _ => he1.trans he2.symm⟩
      · rw [he1, if_neg hne, if_pos he2] at h
        exfalso
        have hd := congrArg String.data h
        rw [strData_append, strData_append, strColon_data, List.append_assoc] at hd
        exact hnc dt md (hd ▸ List.mem_append_right _ (List.mem_cons_self ':' _))
    · by_cases he2 : getTabKey dest.tabStrategy dt' md' = ""
      · rw [he2, if_pos he1, if_neg hne] at h
        exfalso
        have hd := congrArg String.data h.symm
        rw [strData_append, strData_append, strColon_data, List.append_assoc] at hd
        exact hnc dt' md' (hd.symm ▸ List.mem_append_right _ (List.mem_cons_self ':' _))
      · rw [if_pos he1, if_pos he2] at h
        have hd := congrArg String.data h
        rw [strData_append, strData_append, strData_append, strData_append,
          strColon_data, List.append_assoc, List.append_assoc] at hd
        have hsplit := sep_inj (hnc dt md) (hnc dt' md') hd
        refine ⟨hdk (String.ext hsplit.1), fun _ => String.ext hsplit.2⟩

end VMT
namespace VMT

/-- C2: under the amended reading (colon-free group keys, tab titles a function
of tab keys, and nonempty tab titles), any two inputs of a run on a healthy
state that share a `get_cache_key` string get the same `(document id, tab id)`
pair from `prepare_for_memo`. -/
theorem c2_cache_key_agreement {dest : GDest}
    (H1 : ∀ (dt : PyDateTime) (md : Metadata), ':' ∉ (docGroupKey dest.docStrategy dt md).data)
    (H2 : ∀ (dt : PyDateTime) (md : Metadata) (dt' : PyDateTime) (md' : Metadata),
      tkOf dest dt md = tkOf dest dt' md' → ttOf dest dt md = ttOf dest dt' md')
    (H3 : ∀ (dt : PyDateTime) (md : Metadata), ttOf dest dt md ≠ "") :
    ∀ (inps : List (PyDateTime × Metadata)) (st : GState), StateOk dest st →
      ∀ (a b : Nat) (ia ib : PyDateTime × Metadata),
        inps[a]? = some ia → inps[b]? = some ib →
        getCacheKey dest ia.1 ia.2 = getCacheKey dest ib.1 ib.2 →
        ∃ did ot, (runP dest st inps).2.1[a]? = some (.ok (did, ot)) ∧
          (runP dest st inps).2.1[b]? = some (.ok (did, ot)) := by
  intro inps
  induction inps with
  | nil =>
    intro st hok a b ia ib ha hb hkey
    simp at ha
  | cons j tail ih =>
    intro st hok a b ia ib ha hb hkey
    obtain ⟨dt, md⟩ := j
    rw [runP_cons]
    dsimp only
    rcases a with _ | m <;> rcases b with _ | n
    · obtain ⟨did, ot, hres⟩ := prep_ok hok dt md
      exact ⟨did, ot, by rw [List.getElem?_cons_zero, hres],
        by rw [List.getElem?_cons_zero, hres]⟩
    · rw [List.getElem?_cons_zero] at ha
      obtain rfl := Option.some.inj ha
      rw [List.getElem?_cons_succ] at hb
      dsimp only at hkey
      obtain ⟨did, ot, hres⟩ := prep_ok hok dt md
      have hpair := prep_establish (H3 dt md) hres
      have hsplit := cacheKey_split H1 hkey.symm
      refine ⟨did, ot, by rw [List.getElem?_cons_zero, hres], ?_⟩
      rw [List.getElem?_cons_succ]
      exact run_replay tail _ hpair n ib hb hsplit.1
        (fun hnt => H2 ib.1 ib.2 dt md (hsplit.2 hnt) ▸ rfl)
    · rw [List.getElem?_cons_zero] at hb
      obtain rfl := Option.some.inj hb
      rw [List.getElem?_cons_succ] at ha
      dsimp only at hkey
      obtain ⟨did, ot, hres⟩ := prep_ok hok dt md
      have hpair := prep_establish (H3 dt md) hres
      have hsplit := cacheKey_split H1 hkey
      refine ⟨did, ot, ?_, by rw [List.getElem?_cons_zero, hres]⟩
      rw [List.getElem?_cons_succ]
      exact run_replay tail _ hpair m ia ha hsplit.1
        (fun hnt => H2 ia.1 ia.2 dt md (hsplit.2 hnt) ▸ rfl)
    · rw [List.getElem?_cons_succ] at ha hb
      obtain ⟨did, ot, h1, h2⟩ :=
        ih (prepareForMemo dest st dt md).st (StateOk_preserved hok dt md) m n ia ib ha hb hkey
      exact ⟨did, ot, by rw [List.getElem?_cons_succ]; exact h1,
        by rw [List.getElem?_cons_succ]; exact h2⟩

end VMT
namespace VMT

/-- Witness for C2 at a default-style configuration: two same-morning inputs
share the cache key and get the same document and tab. -/
theorem c2_cache_key_agreement_witness :
    getCacheKey wDest (mkDT 2025 1 30 9 0 0) {} = getCacheKey wDest (mkDT 2025 1 30 10 0 0) {} ∧
    ∃ did ot,
      (runP wDest emptyGState
        [(mkDT 2025 1 30 9 0 0, {}), (mkDT 2025 1 30 10 0 0, {})]).2.1[0]? =
        some (.ok (did, ot)) ∧
      (runP wDest emptyGState
        [(mkDT 2025 1 30 9 0 0, {}), (mkDT 2025 1 30 10 0 0, {})]).2.1[1]? =
        some (.ok (did, ot)) := by
  refine ⟨rfl, c2_cache_key_agreement ?_ ?_ ?_
    [(mkDT 2025 1 30 9 0 0, {}), (mkDT 2025 1 30 10 0 0, {})] emptyGState ?_
    0 1 (mkDT 2025 1 30 9 0 0, {}) (mkDT 2025 1 30 10 0 0, {}) rfl rfl rfl⟩
  · intro dt md
    show ':' ∉ ("single" : String).data
    decide
  · intro dt md dt' md' h
    show timeOfDayTitleLoop (tkOf wDest dt md) _ = timeOfDayTitleLoop (tkOf wDest dt' md') _
    rw [h]
  · intro dt md
    exact timeOfDayTitleLoop_ne_empty _ _
  · exact ⟨⟨[], rfl, fun p hp => absurd hp (List.not_mem_nil p)⟩, fun d hd => nomatch hd⟩

/-- C2 counterexample: with the default document strategy and hour-formatted
daily tabs, the two inputs share cache key `"single:2025-01-30"` but resolve to
different tabs. -/
theorem c2_counterexample :
    getCacheKey cxDest (mkDT 2025 1 30 9 0 0) {} =
      getCacheKey cxDest (mkDT 2025 1 30 15 0 0) {} ∧
    (runP cxDest emptyGState cxInputs).2.1 =
      [.ok ("d", some "t"), .ok ("d", some "tt")] ∧
    ¬ ∃ did ot,
      (runP cxDest emptyGState cxInputs).2.1[0]? = some (.ok (did, ot)) ∧
      (runP cxDest emptyGState cxInputs).2.1[1]? = some (.ok (did, ot)) := by
  refine ⟨rfl, rfl, ?_⟩
  rintro ⟨did, ot, h1, h2⟩
  rw [show (runP cxDest emptyGState cxInputs).2.1[0]? =
    some (Except.ok (("d" : String), some ("t" : String))) from rfl] at h1
  rw [show (runP cxDest emptyGState cxInputs).2.1[1]? =
    some (Except.ok (("d" : String), some ("tt" : String))) from rfl] at h2
  have e := (Option.some.inj h1).trans (Option.some.inj h2).symm
  injection e with e1
  injection e1 with e2 e3
  injection e3 with e4
  exact absurd e4 (by decide)

end VMT
namespace VMT

theorem run_fresh_groups {dest : GDest} (hno : dest.docId = none) :
    ∀ (inps : List (PyDateTime × Metadata)) (st : GState) (gs0 : List (String × Json)),
      StateOk dest st → groupsOf st = some gs0 →
      List.Pairwise (fun i j => gkOf dest i.1 i.2 ≠ gkOf dest j.1 j.2) inps →
      (∀ i ∈ inps, objGet (gkOf dest i.1 i.2) gs0 = none) →
      ∃ gs, groupsOf (runP dest st inps).1 = some gs ∧
        gs.length = gs0.length + inps.length ∧
        (∀ k v, objGet k gs0 = some v → objGet k gs = some v) ∧
        ∀ (m : Nat) (i : PyDateTime × Metadata), inps[m]? = some i → ∃ did ot,
          (runP dest st inps).2.1[m]? = some (.ok (did, ot)) ∧
          objGet (gkOf dest i.1 i.2) gs = some (Json.str did) := by
  intro inps
  induction inps with
  | nil =>
    intro st gs0 hok hgs0 hpw habs
    refine ⟨gs0, hgs0, by simp [runP], fun k v h => h, ?_⟩
    intro m i hm
    simp at hm
  | cons j tail ih =>
    intro st gs0 hok hgs0 hpw habs
    obtain ⟨dt, md⟩ := j
    have habs0 : objGet (gkOf dest dt md) gs0 = none :=
      habs (dt, md) (List.mem_cons_self _ _)
    obtain ⟨hhead, htail⟩ := List.pairwise_cons.mp hpw
    rcases hd : getOrCreateDoc dest st dt md with e | ⟨did, st1, evs1⟩
    · exfalso
      obtain ⟨did', ot', hres⟩ := prep_ok hok dt md
      rw [show (prepareForMemo dest st dt md).res = .error () by
        simp [prepareForMemo, hd]] at hres
      cases hres
    · rcases ht : getOrCreateTab dest st1 (docGroupKey dest.docStrategy dt md) did dt md with
        e2 | ⟨ot, st2, evs2⟩
      · exfalso
        obtain ⟨did', ot', hres⟩ := prep_ok hok dt md
        rw [show (prepareForMemo dest st dt md).res = .error () by
          simp [prepareForMemo, hd, ht]] at hres
        cases hres
      · have hst : (prepareForMemo dest st dt md).st = st2 := by
          simp [prepareForMemo, hd, ht]
        have hres : (prepareForMemo dest st dt md).res = .ok (did, ot) := by
          simp [prepareForMemo, hd, ht]
        rcases gocd_cases hd with ⟨-, -, hcc | ⟨-, gs', hgs', hget'⟩⟩ |
            ⟨-, -, -, -, -, -, gs', hgs', -, hgs1⟩
        · rw [hno] at hcc
          cases hcc
        · have hq : gs' = gs0 := Option.some.inj (hgs'.symm.trans hgs0)
          rw [hq, habs0] at hget'
          cases hget'
        · have hq : gs' = gs0 := Option.some.inj (hgs'.symm.trans hgs0)
          rw [hq] at hgs1
          have hfile : st2.docsFile = st1.docsFile := by
            rcases goct_cases ht with ⟨-, -, rfl, -⟩ |
              ⟨-, doc0, -, ⟨tid, -, -, rfl, -⟩ | ⟨-, -, -, hf, -⟩⟩
            · rfl
            · rfl
            · exact hf
          have hok2 : StateOk dest st2 := hst ▸ StateOk_preserved hok dt md
          have hgs2 : groupsOf st2 = some (gs0 ++ [(gkOf dest dt md, Json.str did)]) :=
            (groupsOf_congr hfile).trans hgs1
          have habs' : ∀ i ∈ tail,
              objGet (gkOf dest i.1 i.2) (gs0 ++ [(gkOf dest dt md, Json.str did)]) = none := by
            intro i hi
            rw [← dictSet_of_none _ habs0,
              objGet_dictSet_other (Ne.symm (hhead i hi)) gs0 (Json.str did)]
            exact habs i (List.mem_cons_of_mem _ hi)
          obtain ⟨gs, hgs, hlen, hpres, hidx⟩ :=
            ih st2 (gs0 ++ [(gkOf dest dt md, Json.str did)]) hok2 hgs2 htail habs'
          have hself : objGet (gkOf dest dt md)
              (gs0 ++ [(gkOf dest dt md, Json.str did)]) = some (Json.str did) := by
            rw [← dictSet_of_none _ habs0]
            exact objGet_dictSet_self gs0 _ _
          refine ⟨gs, ?_, ?_, ?_, ?_⟩
          · rw [runP_cons]
            dsimp only
            rw [hst]
            exact hgs
          · rw [hlen]
            simp
            omega
          · intro k v hkv
            exact hpres k v (objGet_append_left _ hkv)
          · intro m i hm
            rcases m with _ | n
            · rw [List.getElem?_cons_zero] at hm
              obtain rfl := Option.some.inj hm
              refine ⟨did, ot, ?_, hpres _ _ hself⟩
              rw [runP_cons]
              dsimp only
              rw [hst, List.getElem?_cons_zero, hres]
            · rw [List.getElem?_cons_succ] at hm
              obtain ⟨did', ot', h1, h2⟩ := hidx n i hm
              refine ⟨did', ot', ?_, h2⟩
              rw [runP_cons]
              dsimp only
              rw [hst, List.getElem?_cons_succ]
              exact h1

end VMT
namespace VMT

/-- C3: loading a legacy flat map or a mode-tagged ("weekly"/"single") map
yields exactly its entries under the canonical `groups` shape; the state a
`prepare_for_memo` call saves preserves every prior group entry; and writing
N pairwise-distinct group keys from a fresh state yields exactly N entries,
each mapping to the doc id the write returned. -/
theorem c3_docs_map_round_trip :
    (∀ kvs : List (String × Json), objGet "mode" kvs = none → objGet "groups" kvs = none →
      loadDocsMap (some (Json.obj kvs)) = [("groups", Json.obj kvs)]) ∧
    (∀ (kvs : List (String × Json)) (w : Json), objGet "mode" kvs = some (Json.str "weekly") →
      objGet "weekly" kvs = some w → loadDocsMap (some (Json.obj kvs)) = [("groups", w)]) ∧
    (∀ (kvs : List (String × Json)) (v : Json), objGet "mode" kvs = some (Json.str "single") →
      objGet "single" kvs = some v →
      loadDocsMap (some (Json.obj kvs)) = [("groups", Json.obj [("single", v)])]) ∧
    (∀ (dest : GDest) (st : GState) (dt : PyDateTime) (md : Metadata) (g did : String),
      docAssigned st g did → docAssigned (prepareForMemo dest st dt md).st g did) ∧
    (∀ dest : GDest, dest.docId = none →
      ∀ inps : List (PyDateTime × Metadata),
        List.Pairwise (fun i j => gkOf dest i.1 i.2 ≠ gkOf dest j.1 j.2) inps →
        ∃ gs, groupsOf (runP dest emptyGState inps).1 = some gs ∧
          gs.length = inps.length ∧
          ∀ (m : Nat) (i : PyDateTime × Metadata), inps[m]? = some i → ∃ did ot,
            (runP dest emptyGState inps).2.1[m]? = some (Except.ok (did, ot)) ∧
            objGet (gkOf dest i.1 i.2) gs = some (Json.str did)) := by
  refine ⟨?_, ?_, ?_, fun dest st dt md g did h => (prep_mono dest st dt md).1 g did h, ?_⟩
  · intro kvs hm hg
    simp only [loadDocsMap, hm, hg, Option.isSome_none, Bool.false_eq_true, if_false]
  · intro kvs w hm hw
    simp only [loadDocsMap, hm, hw, Option.getD]
  · intro kvs v hm hv
    simp only [loadDocsMap, hm, hv, Option.getD]
  · intro dest hno inps hpw
    obtain ⟨gs, hgs, hlen, hpres, hidx⟩ := run_fresh_groups hno inps emptyGState []
      ⟨⟨[], rfl, fun p hp => absurd hp (List.not_mem_nil p)⟩,
        fun d hd => absurd (hno.symm.trans hd) (fun hq => nomatch hq)⟩
      rfl hpw (fun i hi => rfl)
    exact ⟨gs, hgs, by simpa using hlen, hidx⟩

/-- Witness for C3: a one-entry flat legacy file, and a two-week run minting
two documents. -/
theorem c3_docs_map_round_trip_witness :
    loadDocsMap (some (Json.obj [("2025-01-27", Json.str "docA")])) =
      [("groups", Json.obj [("2025-01-27", Json.str "docA")])] ∧
    (∃ gs, groupsOf (runP ⟨none, .weekly, .noTab⟩ emptyGState
        [(mkDT 2025 1 30 9 0 0, {}), (mkDT 2025 2 10 9 0 0, {})]).1 = some gs ∧
      gs.length = 2 ∧
      ∀ (m : Nat) (i : PyDateTime × Metadata),
        [(mkDT 2025 1 30 9 0 0, ({} : Metadata)), (mkDT 2025 2 10 9 0 0, {})][m]? = some i →
        ∃ did ot,
          (runP ⟨none, .weekly, .noTab⟩ emptyGState
            [(mkDT 2025 1 30 9 0 0, {}), (mkDT 2025 2 10 9 0 0, {})]).2.1[m]? =
            some (Except.ok (did, ot)) ∧
          objGet (gkOf ⟨none, .weekly, .noTab⟩ i.1 i.2) gs = some (Json.str did)) := by
  refine ⟨c3_docs_map_round_trip.1 _ rfl rfl,
    c3_docs_map_round_trip.2.2.2.2 ⟨none, .weekly, .noTab⟩ rfl
      [(mkDT 2025 1 30 9 0 0, {}), (mkDT 2025 2 10 9 0 0, {})] ?_⟩
  refine List.Pairwise.cons ?_ (List.Pairwise.cons ?_ List.Pairwise.nil)
  · intro j hj
    rw [List.mem_singleton.mp hj]
    intro h
    exact absurd (congrArg String.data h) (by decide)
  · intro j hj
    cases hj

end VMT
namespace VMT

theorem isDigitCh_digitChar (n : Nat) : isDigitCh (digitChar n) = true := by
  have h : n % 10 < 10 := Nat.mod_lt _ (by norm_num)
  unfold digitChar
  generalize hq : n % 10 = m at h ⊢
  interval_cases m <;> decide

theorem natDigitsAux_digits : ∀ (fuel n : Nat), n < fuel →
    natDigitsAux fuel n ≠ [] ∧ (natDigitsAux fuel n).all isDigitCh = true := by
  intro fuel
  induction fuel with
  | zero => intro n h; exact absurd h (Nat.not_lt_zero n)
  | succ f ih =>
    intro n h
    unfold natDigitsAux
    by_cases h10 : n < 10
    · simp only [if_pos h10]
      refine ⟨by simp, ?_⟩
      simp [List.all_cons, isDigitCh_digitChar]
    · simp only [if_neg h10]
      have hlt : n / 10 < f := by
        have hd : n / 10 < n := Nat.div_lt_self (by omega) (by omega)
        omega
      obtain ⟨h1, h2⟩ := ih (n / 10) hlt
      refine ⟨?_, ?_⟩
      · intro hc
        exact h1 (List.append_eq_nil.mp hc).1
      · rw [List.all_append, h2]
        simp [List.all_cons, isDigitCh_digitChar]

theorem isSpaceCh_of_digit {c : Char} (h : isDigitCh c = true) : isSpaceCh c = false := by
  unfold isDigitCh at h
  rw [Bool.and_eq_true] at h
  have h1 : '0' ≤ c := of_decide_eq_true h.1
  unfold isSpaceCh
  have hne : ∀ x : Char, ¬('0' ≤ x) → (c == x) = false := by
    intro x hx
    rw [beq_eq_false_iff_ne]
    rintro rfl
    exact hx h1
  rw [hne ' ' (by decide), hne '\t' (by decide), hne '\r' (by decide),
    hne '\x0b' (by decide), hne '\x0c' (by decide)]
  rfl

theorem listStarts_append_self : ∀ (p s : List Char), listStarts p (p ++ s) = true := by
  intro p s
  induction p with
  | nil => rfl
  | cons c cs ih =>
    show (c == c && listStarts cs (cs ++ s)) = true
    rw [ih, Bool.and_true, beq_self_eq_true]

theorem isCountLine_count (k : Nat) :
    isCountLine ("memo_count: " ++ natToString k) = true := by
  obtain ⟨hne, hall⟩ := natDigitsAux_digits (k + 1) k (Nat.lt_succ_self k)
  unfold isCountLine
  have hdata : ("memo_count: " ++ natToString k).data =
      "memo_count:".data ++ (' ' :: natDigitsAux (k + 1) k) := by
    rw [strData_append]
    rfl
  rw [hdata, listStarts_append_self, Bool.true_and,
    show (11 : Nat) = "memo_count:".data.length from rfl, List.drop_left]
  rw [List.dropWhile_cons]
  rw [if_pos (by decide)]
  cases hq : natDigitsAux (k + 1) k with
  | nil => exact absurd hq hne
  | cons c cs =>
    rw [hq, List.all_cons, Bool.and_eq_true] at hall
    have hc : isDigitCh c = true := hall.1
    rw [List.dropWhile_cons, if_neg (by rw [isSpaceCh_of_digit hc]; exact fun hh => nomatch hh)]
    simp [List.all_cons, hall.1, hall.2]

theorem isCountLine_data_cons (c : Char) (cs : List Char) (h : ('m' == c) = false)
    (l : String) (hl : l.data = c :: cs) : isCountLine l = false := by
  unfold isCountLine
  rw [hl, show listStarts "memo_count:".data (c :: cs) =
    ('m' == c && listStarts "emo_count:".data cs) from rfl, h, Bool.false_and, Bool.false_and]

theorem isCountLine_front (cfg : ObsCfg) (dt : PyDateTime) :
    ∀ l ∈ obsFrontTail cfg dt, isCountLine l = false := by
  intro l hl
  unfold obsFrontTail at hl
  rcases List.mem_append.mp hl with hl1 | hl2
  · rcases List.mem_append.mp hl1 with hl3 | hl4
    · simp only [List.mem_cons, List.not_mem_nil, or_false] at hl3
      rcases hl3 with rfl | rfl
      · exact isCountLine_data_cons 'd' _ (by decide) _ (by rw [strData_append]; rfl)
      · decide
    · split at hl4
      · rw [List.mem_singleton.mp hl4]
        decide
      · cases hl4
  · split at hl2
    · rw [List.mem_singleton.mp hl2]
      exact isCountLine_data_cons 'w' _ (by decide) _ (by rw [strData_append]; rfl)
    · cases hl2

end VMT
namespace VMT

theorem replaceCountAfter_count (n k : Nat) (mid : List String) :
    ∀ front : List String, (∀ l ∈ front, isCountLine l = false) →
      replaceCountAfter n (front ++ ("memo_count: " ++ natToString k) :: "---" :: mid) =
        some (front ++ ("memo_count: " ++ natToString n) :: "---" :: mid) := by
  intro front
  induction front with
  | nil =>
    intro hfront
    show replaceCountAfter n (("memo_count: " ++ natToString k) :: "---" :: mid) = _
    unfold replaceCountAfter
    rw [if_pos ⟨isCountLine_count k,
      by rw [List.any_cons, show lineStartsDash "---" = true from by decide, Bool.true_or]⟩]
    rfl
  | cons l front' ih =>
    intro hfront
    show replaceCountAfter n (l :: (front' ++ _)) = _
    unfold replaceCountAfter
    rw [if_neg ?_]
    · rw [ih (fun x hx => hfront x (List.mem_cons_of_mem _ hx))]
      rfl
    · rintro ⟨h1, -⟩
      rw [hfront l (List.mem_cons_self _ _)] at h1
      cases h1

theorem updateMemoCountLines_shape (n k : Nat) (front mid : List String)
    (hfront : ∀ l ∈ front, isCountLine l = false) :
    updateMemoCountLines n
        ("---" :: front ++ ("memo_count: " ++ natToString k) :: "---" :: mid) =
      "---" :: front ++ ("memo_count: " ++ natToString n) :: "---" :: mid := by
  show updateMemoCountLines n ("---" :: (front ++ _)) = _
  unfold updateMemoCountLines
  rw [if_pos (show lineEndsDash "---" = true from by decide)]
  rw [replaceCountAfter_count n k mid front hfront]
  rfl

theorem appendAll_counted (cfg : ObsCfg) (hf : cfg.includeFrontmatter = true)
    (front : List String) (hfront : ∀ l ∈ front, isCountLine l = false) :
    ∀ (entries : List ObsEntry) (k : Nat) (body : List String),
      appendAll cfg
        ⟨"---" :: front ++ ("memo_count: " ++ natToString k) :: "---" :: body, some k⟩
        entries =
      ⟨"---" :: front ++ ("memo_count: " ++ natToString (k + entries.length)) :: "---" ::
        (body ++ (entries.map (obsEntryLines cfg)).flatten), some (k + entries.length)⟩ := by
  intro entries
  induction entries with
  | nil =>
    intro k body
    simp [appendAll]
  | cons e rest ih =>
    intro k body
    have hlines : ("---" :: front ++ ("memo_count: " ++ natToString k) :: "---" :: body)
        ++ obsEntryLines cfg e =
        "---" :: front ++ ("memo_count: " ++ natToString k) :: "---" ::
          (body ++ obsEntryLines cfg e) := by
      simp [List.cons_append, List.append_assoc]
    have hstep : appendTranscript cfg
        ⟨"---" :: front ++ ("memo_count: " ++ natToString k) :: "---" :: body, some k⟩
        e.memoName e.timestamp e.transcriptLines e.md =
        ⟨"---" :: front ++ ("memo_count: " ++ natToString (k + 1)) :: "---" ::
          (body ++ obsEntryLines cfg e), some (k + 1)⟩ := by
      unfold appendTranscript updateMemoCount
      dsimp only
      rw [hf, if_neg (fun hq => nomatch hq)]
      rw [show formatTranscriptEntryLines e.memoName e.timestamp e.transcriptLines
        (if cfg.includeMetadata = true then e.md else {}) = obsEntryLines cfg e from rfl]
      rw [hlines, updateMemoCountLines_shape (k + 1) k front (body ++ obsEntryLines cfg e) hfront]
    show appendAll cfg (appendTranscript cfg _ e.memoName e.timestamp e.transcriptLines e.md)
        rest = _
    rw [hstep, ih (k + 1) (body ++ obsEntryLines cfg e)]
    have harg : k + 1 + rest.length = k + (e :: rest).length := by
      simp
      omega
    rw [harg]
    simp [List.append_assoc]

end VMT
namespace VMT

theorem prepareFreshObs_shape (cfg : ObsCfg) (hf : cfg.includeFrontmatter = true)
    (dt : PyDateTime) :
    prepareFreshObs cfg dt =
      ⟨"---" :: obsFrontTail cfg dt ++ ("memo_count: " ++ natToString 0) :: "---" ::
        ("" :: obsHeaderLines cfg dt), some 0⟩ := by
  unfold prepareFreshObs createFileWithHeaderLines obsFrontTail obsHeaderLines obsOrg obsDate
  by_cases hw : cfg.organizeBy = "weekly"
  · simp [hw, hf, List.append_assoc]
    decide
  · simp [hw, hf, List.append_assoc]
    decide

/-- C6: with frontmatter on, appending K transcripts to a freshly created
markdown file leaves exactly the fresh frontmatter with `memo_count` equal to
K, the fresh header, and the K formatted entries in order — the counter update
touches nothing else. -/
theorem c6_frontmatter_counter (cfg : ObsCfg) (hf : cfg.includeFrontmatter = true)
    (dt : PyDateTime) (entries : List ObsEntry) :
    appendAll cfg (prepareFreshObs cfg dt) entries =
      ⟨"---" :: obsFrontTail cfg dt ++
        ("memo_count: " ++ natToString entries.length) :: "---" :: "" ::
        (obsHeaderLines cfg dt ++ (entries.map (obsEntryLines cfg)).flatten),
       some entries.length⟩ := by
  rw [prepareFreshObs_shape cfg hf dt]
  rw [appendAll_counted cfg hf (obsFrontTail cfg dt) (isCountLine_front cfg dt) entries 0
    ("" :: obsHeaderLines cfg dt)]
  rw [Nat.zero_add]
  rfl

/-- Witness for C6: the default configuration, one appended transcript. -/
theorem c6_frontmatter_counter_witness :
    ({} : ObsCfg).includeFrontmatter = true ∧
    appendAll {} (prepareFreshObs {} (mkDT 2025 1 30 9 0 0)) [⟨"m1", "ts", ["hello"], {}⟩] =
      ⟨"---" :: obsFrontTail {} (mkDT 2025 1 30 9 0 0) ++
        ("memo_count: " ++ natToString 1) :: "---" :: "" ::
        (obsHeaderLines {} (mkDT 2025 1 30 9 0 0) ++
          ([⟨"m1", "ts", ["hello"], {}⟩].map (obsEntryLines {})).flatten),
       some 1⟩ :=
  ⟨rfl, c6_frontmatter_counter {} rfl (mkDT 2025 1 30 9 0 0) [⟨"m1", "ts", ["hello"], {}⟩]⟩

end VMT
namespace VMT

/-- Why `run_doc_le_one` needs the healthy-state premise: on a persisted file
whose `"groups"` value is a list, every call for the same group key runs
`documents().create` and only then raises on the map assignment, so two memos
create two documents for one group key. -/
theorem run_doc_twice_bad_file :
    countDocCreations "single"
      (runP cxDest ⟨⟨[], 0, 0⟩, some (Json.obj [("groups", Json.arr [])])⟩ cxInputs).2.2 = 2 :=
  rfl

end VMT
